import Mathlib

/-!
webosi18n `IString`: choice grammar, selector matchers and token formatter

A shallow embedding of `src/IString.cpp`.

* A `std::string` is the list of its characters (`Str`).
* A `std::map<string, string>` is the list of its entries in iteration order.
* A `double` is an exact rational: rounding is not modelled.  Every selector
  bound the theorems below make the code parse is an integer of magnitude
  below `2 ^ 53`, which a `double` holds exactly.
* An `IString` object is a record of its fields; a member function that writes
  the parse cache returns the new record.
* A call that does not return is the result `none`: undefined behaviour
  (reading a `vector` out of bounds) or an exception nothing catches
  (`boost::regex_error` from the construction of a pattern).
-/

namespace WebOSi18n

/-- A `std::string`. -/
abbrev Str := List Char

/-- Limit `LONG_MAX` of a 64-bit `long`. -/
def LONG_MAX : Int := 9223372036854775807

/-- Limit `LONG_MIN` of a 64-bit `long`. -/
def LONG_MIN : Int := -9223372036854775808

/-! ## Library routines used by the source -/

/-- `std::string::find(const string&)` from position 0: index of the first
occurrence of `pat` in `s`, `none` for `npos`. -/
def find (pat : Str) : Str → Option Nat
  | [] => if pat = [] then some 0 else none
  | c :: cs =>
    if pat.isPrefixOf (c :: cs) then some 0
    else (find pat cs).map (· + 1)

/-- `std::string::find(char)` from position 0. -/
def findChar (ch : Char) : Str → Option Nat
  | [] => none
  | c :: cs => if c = ch then some 0 else (findChar ch cs).map (· + 1)

/-- `std::string::replace(pos, len, str)` for `pos <= size()`. -/
def replace (s : Str) (pos len : Nat) (str : Str) : Str :=
  s.take pos ++ str ++ s.drop (pos + len)

/-- `std::string::substr(pos)` for `pos <= size()`. -/
def substr (s : Str) (pos : Nat) : Str := s.drop pos

/-- `std::string::substr(pos, len)` for `pos <= size()`. -/
def substr2 (s : Str) (pos len : Nat) : Str := (s.drop pos).take len

/-- `tolower` in the C locale. -/
def tolower (c : Char) : Char := c.toLower

/-- `boost::algorithm::to_lower` in the C locale. -/
def to_lower (s : Str) : Str := s.map tolower

/-- `isspace` in the C locale. -/
def isspace (c : Char) : Bool :=
  c = ' ' || c = '\t' || c = '\n' || c = '\x0b' || c = '\x0c' || c = '\r'

/-- Value of a run of decimal digits, most significant first. -/
def digitsValue (ds : Str) : Nat :=
  ds.foldl (fun acc c => acc * 10 + (c.toNat - 48)) 0

/-- Sign prefix of a number: whether it is negative, and the remaining text. -/
def readSign : Str → Bool × Str
  | [] => (false, [])
  | c :: t =>
    if c = '-' then (true, t)
    else if c = '+' then (false, t)
    else (false, c :: t)

/-- `strtol(s, &end, 10)` on a 64-bit `long`: the value returned and whether
`errno` was set.  White space is skipped, one sign is read, then the longest
run of decimal digits; without digits the value is `0`; a value out of range is
clamped and sets `errno` to `ERANGE`. -/
def strtol (s : Str) : Int × Bool :=
  let signed := readSign (s.dropWhile isspace)
  let n : Nat := digitsValue (signed.2.takeWhile Char.isDigit)
  let v : Int := if signed.1 then -(n : Int) else (n : Int)
  if v > LONG_MAX then (LONG_MAX, true)
  else if v < LONG_MIN then (LONG_MIN, true)
  else (v, false)

/-- Largest finite `double`. -/
def DBL_MAX : ℚ := (2 ^ 53 - 1) * 2 ^ 971

/-- Smallest positive normal `double`. -/
def DBL_MIN : ℚ := 1 / 2 ^ 1022

/-- Exponent part of a decimal floating literal: `e` or `E`, an optional sign
and at least one digit; `0` when there is none. -/
def readExponent : Str → Int
  | c :: t =>
    if c = 'e' || c = 'E' then
      let signed := readSign t
      let ds := signed.2.takeWhile Char.isDigit
      if ds = [] then 0
      else if signed.1 then -(digitsValue ds : Int) else (digitsValue ds : Int)
    else 0
  | [] => 0

/-- `strtod(s, &end)` on decimal input, over exact rationals: the value
returned and whether `errno` was set.  White space is skipped, one sign is
read, then digits with an optional fraction and an optional exponent; without
digits the value is `0`.  A magnitude above `DBL_MAX`, or a non-zero one below
`DBL_MIN`, sets `errno` to `ERANGE`.  Rounding to the nearest `double`, and the
hexadecimal, infinity and NaN forms, are not modelled. -/
def strtod (s : Str) : ℚ × Bool :=
  let signed := readSign (s.dropWhile isspace)
  let intDigits := signed.2.takeWhile Char.isDigit
  let afterInt := signed.2.dropWhile Char.isDigit
  let fracDigits := match afterInt with
    | '.' :: t => t.takeWhile Char.isDigit
    | _ => []
  let afterFrac := match afterInt with
    | '.' :: t => t.dropWhile Char.isDigit
    | _ => afterInt
  if intDigits = [] ∧ fracDigits = [] then (0, false)
  else
    let mantissa : ℚ := (digitsValue (intDigits ++ fracDigits) : ℚ) / 10 ^ fracDigits.length
    let magnitude : ℚ := mantissa * 10 ^ readExponent afterFrac
    let v : ℚ := if signed.1 then -magnitude else magnitude
    if magnitude > DBL_MAX then (0, true)
    else if magnitude ≠ 0 ∧ magnitude < DBL_MIN then (0, true)
    else (v, false)

/-! ## The object -/

/-- An `IString` object: the template text and the parse cache.  A compiled
`boost::regex` in `patterns` is held as the selector it was compiled from. -/
structure IString where
  text : Str
  selectors : List Str
  strings : List Str
  defaultChoice : Str
  patterns : List Str
deriving DecidableEq, Repr

namespace IString

/-- Constructor `IString::IString(const string source)`. -/
def new (source : Str) : IString :=
  { text := source, selectors := [], strings := [], defaultChoice := [], patterns := [] }

/-- Member `IString::toString`. -/
def toString (self : IString) : Str := self.text

/-- One pass of the loop body of `IString::format`. -/
def formatStep (formatted : Str) (entry : Str × Str) : Str :=
  let keyInBraces : Str := '{' :: entry.1 ++ ['}']
  match find keyInBraces formatted with
  | some pos => replace formatted pos keyInBraces.length entry.2
  | none => formatted

/-- Member `IString::format(map<string, string> values)`. -/
def format (self : IString) (values : List (Str × Str)) : Str :=
  let formatted := self.text
  if !values.isEmpty then values.foldl formatStep formatted
  else formatted

/-- Loop of `IString::equalsIgnoreCase`, run once the sizes are equal. -/
def equalsIgnoreCaseLoop : Str → Str → Bool
  | c1 :: source, c2 :: target =>
    if tolower c1 ≠ tolower c2 then false else equalsIgnoreCaseLoop source target
  | _, _ => true

/-- Static `IString::equalsIgnoreCase`. -/
def equalsIgnoreCase (source target : Str) : Bool :=
  if source.length ≠ target.length then false
  else equalsIgnoreCaseLoop source target

/-- Static `IString::getBooleanSelector`. -/
def getBooleanSelector (selector : Str) : Int :=
  if equalsIgnoreCase selector "true".toList ||
     equalsIgnoreCase selector "yes".toList ||
     equalsIgnoreCase selector "on".toList ||
     equalsIgnoreCase selector "1".toList then 1
  else if equalsIgnoreCase selector "false".toList ||
     equalsIgnoreCase selector "no".toList ||
     equalsIgnoreCase selector "off".toList ||
     equalsIgnoreCase selector "0".toList then 0
  else -1

/-- `std::search(tempStart, source.end(), delimiter.begin(), delimiter.end())`
for a non-empty delimiter: the text before the first occurrence, and what
follows the occurrence (`none` when the search reaches `source.end()`). -/
def searchDelimiter (delimiter : Str) : Str → Str × Option Str
  | [] => ([], none)
  | c :: cs =>
    if delimiter.isPrefixOf (c :: cs) then ([], some ((c :: cs).drop delimiter.length))
    else ((c :: (searchDelimiter delimiter cs).1), (searchDelimiter delimiter cs).2)

/-- Cleanup of a segment in `IString::split`: every `"` is erased, then one
trailing `,` is cut. -/
def cleanSegment (tempSource : Str) : Str :=
  let erased := tempSource.filter (· ≠ '"')
  if erased.length > 0 ∧ erased.getLast? = some ',' then erased.take (erased.length - 1)
  else erased

/-- The `while (true)` loop of `IString::split`; `fuel` bounds the number of
rounds, and `source.length + 1` rounds always suffice. -/
def splitLoop (delimiter : Str) : Nat → Str → List Str
  | 0, _ => []
  | fuel + 1, rest =>
    let found := searchDelimiter delimiter rest
    let pushed := if found.1 ≠ [] then [cleanSegment found.1] else []
    match found.2 with
    | none => pushed
    | some rest' => pushed ++ splitLoop delimiter fuel rest'

/-- Static `IString::split`. -/
def split (source delimiter : Str) : List Str :=
  if delimiter = [] ∨ (delimiter.length : Int) > LONG_MAX then [source]
  else splitLoop delimiter (source.length + 1) source

/-- `std::getline(data, line, delimiter)` on the unread rest of the stream:
`none` when nothing at all is extracted (the stream fails), else the line and
the new rest. -/
def getline (data : Str) (delimiter : Char) : Option (Str × Str) :=
  match data with
  | [] => none
  | _ => some (data.takeWhile (· ≠ delimiter), (data.dropWhile (· ≠ delimiter)).drop 1)

/-- The `while (getline(...))` loop of `IString::splitBySymbol`; `fuel` bounds
the number of rounds, and `source.length` rounds always suffice. -/
def splitBySymbolLoop (delimiter : Char) : Nat → Str → List Str
  | 0, _ => []
  | fuel + 1, data =>
    match getline data delimiter with
    | none => []
    | some (line, data') => line :: splitBySymbolLoop delimiter fuel data'

/-- Static `IString::splitBySymbol`. -/
def splitBySymbol (source : Str) (delimiter : Char) : List Str :=
  splitBySymbolLoop delimiter (source.length + 1) source

/-- The `for` loop of `IString::parseChoices` over the choices still to read.
The local `str` is carried from one round to the next, as in the source.
`parts[0]` on an empty `parts` is out of bounds: `none`. -/
def parseChoicesLoop :
    List Str → Str → List Str → List Str → Str → Option (List Str × List Str × Str)
  | [], _, selectors, strings, defaultChoice => some (selectors, strings, defaultChoice)
  | choice :: rest, str, selectors, strings, defaultChoice =>
    let parts := splitBySymbol choice '#'
    let str :=
      if parts.length > 2 then
        substr choice (match findChar '#' choice with
          | some pos => pos + 1
          | none => 0)
      else if parts.length = 2 then parts.getD 1 []
      else str
    match parts with
    | [] => none
    | part0 :: _ =>
      parseChoicesLoop rest str (selectors ++ [part0]) (strings ++ [str])
        (if part0.length = 0 then str else defaultChoice)

/-- Member `IString::parseChoices`. -/
def parseChoices (self : IString) : Option IString :=
  let choices := split self.text "|".toList
  match parseChoicesLoop choices [] [] [] [] with
  | none => none
  | some (selectors, strings, defaultChoice) =>
    some { self with selectors := selectors, strings := strings, defaultChoice := defaultChoice }

/-- The step `if (strings.empty()) parseChoices();` shared by the resolvers. -/
def ensureParsed (self : IString) : Option IString :=
  if self.strings.isEmpty then self.parseChoices else some self

/-- The `for` loop of `IString::getChoice(bool)` from index `i`, over the
selectors from `i` on: `some (some s)` is a `return` inside the loop,
`some none` leaving the loop, `none` reading `strings` out of bounds. -/
def getChoiceBoolLoop (strings : List Str) (reference : Bool) :
    Nat → List Str → Option (Option Str)
  | _, [] => some none
  | i, selector :: rest =>
    let value := getBooleanSelector selector
    if value = 1 then
      if reference then strings[i]?.map some
      else getChoiceBoolLoop strings reference (i + 1) rest
    else if value = 0 then
      if !reference then strings[i]?.map some
      else getChoiceBoolLoop strings reference (i + 1) rest
    else getChoiceBoolLoop strings reference (i + 1) rest

/-- Wraps the outcome of a resolver loop: the text found, else the default. -/
def wrapChoice (self : IString) : Option (Option Str) → Option (Option IString × IString)
  | none => none
  | some (some str) => some (some (IString.new str), self)
  | some none => some (some (IString.new self.defaultChoice), self)

/-- Member `IString::getChoice(bool reference)`: the object returned (`none`
for `NULL`) and the object after the call. -/
def getChoiceBool (self : IString) (reference : Bool) : Option (Option IString × IString) :=
  if self.text.isEmpty || self.text.length = 0 then some (none, self)
  else
    match self.ensureParsed with
    | none => none
    | some parsed =>
      wrapChoice parsed (getChoiceBoolLoop parsed.strings reference 0 parsed.selectors)

/-- The loop that builds `patterns` in `IString::getChoice(const string&)`, over
the selectors still to read: one compiled pattern is pushed per non-empty
selector, in order.  The parameter `regexCompiles selector` tells whether the
constructor `boost::regex(selector)` returns; when it throws, the loop is left
with the patterns pushed so far and the second component is `false`. -/
def compilePatterns (regexCompiles : Str → Bool) : List Str → List Str → List Str × Bool
  | [], patterns => (patterns, true)
  | selector :: rest, patterns =>
    if !selector.isEmpty && selector.length > 0 then
      if regexCompiles selector then
        compilePatterns regexCompiles rest (patterns ++ [selector])
      else (patterns, false)
    else compilePatterns regexCompiles rest patterns

/-- The step `if (patterns.empty()) { ... }` of `IString::getChoice(const string&)`:
the object after it, and whether the step completed (`false`: a constructor of
`boost::regex` threw). -/
def ensurePatterns (regexCompiles : Str → Bool) (self : IString) : IString × Bool :=
  if self.patterns.isEmpty then
    let compiled := compilePatterns regexCompiles self.selectors []
    ({ self with patterns := compiled.1 }, compiled.2)
  else (self, true)

/-- Test made on one compiled pattern in `IString::getChoice(const string&)`:
`boost::regex_search(referenceLC, xMatcher, xRegex)` succeeds and
`xMatcher[0].compare(referenceLC) == 0`.  The parameter `regexSearch pattern
subject` stands for `boost::regex_search`: `none` when there is no match, else
the matched span `xMatcher[0]`. -/
def patternMatches (regexSearch : Str → Str → Option Str) (xRegex referenceLC : Str) : Bool :=
  match regexSearch xRegex referenceLC with
  | some xMatcher0 => xMatcher0 = referenceLC
  | none => false

/-- The `for` loop over `patterns` in `IString::getChoice(const string&)` from
index `i`.  Every pattern held was compiled from a non-empty selector, so
`xRegex.expression()` is never null. -/
def getChoiceStringLoop (regexSearch : Str → Str → Option Str) (strings : List Str)
    (referenceLC : Str) : Nat → List Str → Option (Option Str)
  | _, [] => some none
  | i, xRegex :: rest =>
    if patternMatches regexSearch xRegex referenceLC then strings[i]?.map some
    else getChoiceStringLoop regexSearch strings referenceLC (i + 1) rest

/-- Member `IString::getChoice(const string& reference)`.  The result is `none`
also when the construction of a pattern throws: nothing in the member catches
`boost::regex_error`. -/
def getChoiceString (regexCompiles : Str → Bool) (regexSearch : Str → Str → Option Str)
    (self : IString) (reference : Str) : Option (Option IString × IString) :=
  if self.text.isEmpty || self.text.length = 0 then some (none, self)
  else
    match self.ensureParsed with
    | none => none
    | some parsed =>
      let compiled := ensurePatterns regexCompiles parsed
      if compiled.2 then
        if compiled.1.patterns.length > 0 then
          let referenceLC := to_lower reference
          wrapChoice compiled.1
            (getChoiceStringLoop regexSearch compiled.1.strings referenceLC 0
              compiled.1.patterns)
        else wrapChoice compiled.1 (some none)
      else none

/-- The object a call of `IString::getChoice(const string&)` leaves behind when
the construction of a pattern throws: the parse is cached and `patterns` holds
the patterns pushed before the throw.  `none` when the call does not throw. -/
def getChoiceStringThrown (regexCompiles : Str → Bool) (self : IString) : Option IString :=
  if self.text.isEmpty || self.text.length = 0 then none
  else
    match self.ensureParsed with
    | none => none
    | some parsed =>
      let compiled := ensurePatterns regexCompiles parsed
      if compiled.2 then none else some compiled.1

/-- Static `IString::parseDouble`. -/
def parseDouble (digit_string : Str) : ℚ :=
  let d1 := strtod digit_string
  if d1.2 then 0 else d1.1

/-- Static `IString::parseLongToDouble`, which every caller gives base 10. -/
def parseLongToDouble (digit_string : Str) : ℚ :=
  let l1 := strtol digit_string
  if l1.2 ∨ l1.1 < LONG_MIN.tdiv 100000 ∨ l1.1 > LONG_MAX.tdiv 100000 then 0
  else (l1.1 : ℚ)

/-- Static `IString::equalDouble`. -/
def equalDouble (value1 value2 : ℚ) : Bool :=
  decide (|value1 - value2| * 1000000000000 ≤ min |value1| |value2|)

/-- Test made on one selector in the loop of `IString::getChoice(double)`:
whether `result` is set for it. -/
def selectorMatches (sel : Str) (reference : ℚ) : Bool :=
  if sel.length > 2 ∧ substr2 sel 0 2 = "<=".toList then
    decide (reference ≤ parseDouble (substr sel 2))
  else if sel.length > 2 ∧ substr2 sel 0 2 = ">=".toList then
    decide (reference ≥ parseDouble (substr sel 2))
  else if sel.length > 1 ∧ sel.head? = some '<' then
    decide (reference < parseDouble (substr sel 1))
  else if sel.length > 1 ∧ sel.head? = some '>' then
    decide (reference > parseDouble (substr sel 1))
  else if sel.length > 0 then
    match find "-".toList sel with
    | some dash =>
      let start := substr2 sel 0 dash
      let «end» := substr sel (dash + 1)
      decide (reference ≥ parseLongToDouble start) && decide (reference ≤ parseLongToDouble «end»)
    | none =>
      let value := getBooleanSelector sel
      if value > -1 then equalDouble reference (value : ℚ)
      else equalDouble reference (parseLongToDouble sel)
  else false

/-- The `for` loop of `IString::getChoice(double)` from index `i`: the first
selector that sets `result` ends the loop. -/
def getChoiceDoubleLoop (strings : List Str) (reference : ℚ) :
    Nat → List Str → Option (Option Str)
  | _, [] => some none
  | i, sel :: rest =>
    if selectorMatches sel reference then strings[i]?.map some
    else getChoiceDoubleLoop strings reference (i + 1) rest

/-- Member `IString::getChoice(double reference)`. -/
def getChoiceDouble (self : IString) (reference : ℚ) : Option (Option IString × IString) :=
  if self.text.isEmpty || self.text.length = 0 then some (none, self)
  else
    match self.ensureParsed with
    | none => none
    | some parsed =>
      wrapChoice parsed (getChoiceDoubleLoop parsed.strings reference 0 parsed.selectors)

/-- Tail shared by the `formatChoice` members once `getChoice` has returned:
the empty string for `NULL`, else the chosen text, formatted unless `values`
is empty. -/
def formatResult (values : List (Str × Str)) :
    Option (Option IString × IString) → Option (Str × IString)
  | none => none
  | some (none, self) => some ([], self)
  | some (some result, self) =>
    some (if values.isEmpty then result.toString else result.format values, self)

/-- Member `IString::formatChoice(bool, map<string, string>)`. -/
def formatChoiceBool (self : IString) (reference : Bool) (values : List (Str × Str)) :
    Option (Str × IString) :=
  formatResult values (self.getChoiceBool reference)

/-- Member `IString::formatChoice(double, map<string, string>)`. -/
def formatChoiceDouble (self : IString) (reference : ℚ) (values : List (Str × Str)) :
    Option (Str × IString) :=
  formatResult values (self.getChoiceDouble reference)

/-- Member `IString::formatChoice(const string&, map<string, string>)`. -/
def formatChoiceString (regexCompiles : Str → Bool) (regexSearch : Str → Str → Option Str)
    (self : IString) (reference : Str) (values : List (Str × Str)) : Option (Str × IString) :=
  formatResult values (getChoiceString regexCompiles regexSearch self reference)

/-- Static `IString::format(const string& message, map<string, string> parameters)`. -/
def staticFormat (message : Str) (parameters : List (Str × Str)) : Str :=
  let iString := IString.new message
  iString.format parameters

/-- Static `IString::formatChoice(const string& message, double reference,
map<string, string> parameters)`; the transient object is deleted, the string
is what remains. -/
def staticFormatChoiceDouble (message : Str) (reference : ℚ)
    (parameters : List (Str × Str)) : Option Str :=
  let iString := IString.new message
  (iString.formatChoiceDouble reference parameters).map (fun result => result.1)

/-- Static `IString::formatChoice(const string& message, long reference,
map<string, string> parameters)`. -/
def staticFormatChoiceLong (message : Str) (reference : Int)
    (parameters : List (Str × Str)) : Option Str :=
  let dReference : ℚ :=
    if reference ≥ LONG_MIN.tdiv 10000 ∧ reference ≤ LONG_MAX.tdiv 10000 then (reference : ℚ)
    else 1
  let iString := IString.new message
  (iString.formatChoiceDouble dReference parameters).map (fun result => result.1)

end IString

/-! ## Models of the host facilities and of the inputs of the theorems -/

/-- Pattern without metacharacters: lowercase ASCII letters and digits only. -/
def isLiteral (pattern : Str) : Bool :=
  pattern.all (fun c => c.isLower || c.isDigit)

/-- What `boost::regex_search` does with a pattern without metacharacters: it
succeeds when the pattern occurs in the subject, and the matched span is then
the pattern itself. -/
def literalSearch (pattern subject : Str) : Option Str :=
  match find pattern subject with
  | some _ => some pattern
  | none => none

/-- What the constructor `boost::regex(pattern)` does in the closed examples of
this file: it returns on a pattern without metacharacters.  The examples apply
it besides to the pattern `(` only, which `boost::regex` rejects for its
unmatched parenthesis; a pattern with any other character is outside this model,
which counts it as rejected. -/
def literalCompiles (pattern : Str) : Bool := isLiteral pattern

/-- Decimal rendering of a natural number. -/
def decimal (n : Nat) : Str := Nat.toDigits 10 n

/-- Text of a choice that the splitter leaves as it is. -/
def PlainText (t : Str) : Prop :=
  t ≠ [] ∧ (∀ c ∈ t, c ≠ '|' ∧ c ≠ '#' ∧ c ≠ '"') ∧ t.getLast? ≠ some ','

/-- The template `<A#s|A-B#m|>B#l`. -/
def rangeTemplate (A B : Nat) (s m l : Str) : Str :=
  ('<' :: decimal A ++ '#' :: s) ++
    '|' :: ((decimal A ++ '-' :: decimal B ++ '#' :: m) ++ '|' :: ('>' :: decimal B ++ '#' :: l))

/-- The template `sel#t|#d`: one choice with the selector `sel` and the text `t`,
then the default text `d`. -/
def literalTemplate (sel t d : Str) : Str :=
  sel ++ "#".toList ++ t ++ "|#".toList ++ d

/-- One call on an `IString` object that may write its parse cache:
`parseChoices`, or `getChoice` with a reference of one of the three types, a
call that returns or a call of `getChoice(const string&)` left by the exception
of a pattern that does not compile. -/
inductive Step (regexCompiles : Str → Bool) (regexSearch : Str → Str → Option Str) :
    IString → IString → Prop
  | parseChoices {s s' : IString} :
      s.parseChoices = some s' → Step regexCompiles regexSearch s s'
  | getChoiceBool {s s' : IString} (reference : Bool) (result : Option IString) :
      s.getChoiceBool reference = some (result, s') → Step regexCompiles regexSearch s s'
  | getChoiceString {s s' : IString} (reference : Str) (result : Option IString) :
      IString.getChoiceString regexCompiles regexSearch s reference = some (result, s') →
        Step regexCompiles regexSearch s s'
  | getChoiceStringThrown {s s' : IString} :
      IString.getChoiceStringThrown regexCompiles s = some s' →
        Step regexCompiles regexSearch s s'
  | getChoiceDouble {s s' : IString} (reference : ℚ) (result : Option IString) :
      s.getChoiceDouble reference = some (result, s') → Step regexCompiles regexSearch s s'

/-- States an object constructed from `text` can be brought to by such calls. -/
inductive Reachable (regexCompiles : Str → Bool) (regexSearch : Str → Str → Option Str)
    (text : Str) : IString → Prop
  | construct : Reachable regexCompiles regexSearch text (IString.new text)
  | call {s s' : IString} : Reachable regexCompiles regexSearch text s →
      Step regexCompiles regexSearch s s' → Reachable regexCompiles regexSearch text s'

/-- Piece of a text with flat braces: a character other than a brace, or a
placeholder `{key}`. -/
inductive Token where
  | lit (c : Char)
  | hole (key : Str)
deriving DecidableEq, Repr

/-- Text without a brace character. -/
def BraceFree (s : Str) : Prop := ∀ c ∈ s, c ≠ '{' ∧ c ≠ '}'

/-- Characters of one piece. -/
def Token.render : Token → Str
  | .lit c => [c]
  | .hole key => '{' :: key ++ ['}']

/-- A literal piece is not a brace and the key of a placeholder has no brace. -/
def Token.WellFormed : Token → Prop
  | .lit c => c ≠ '{' ∧ c ≠ '}'
  | .hole key => BraceFree key

/-- Text made of the pieces, in order. -/
def render : List Token → Str
  | [] => []
  | t :: ts => t.render ++ render ts

/-! ## Devices of the proofs -/

/-- First-match scan shared by the three resolver loops (proof device). -/
def scanFirst (m : Str → Bool) (strings : List Str) : Nat → List Str → Option (Option Str)
  | _, [] => some none
  | i, s :: rest => if m s then strings[i]?.map some else scanFirst m strings (i + 1) rest

/-- The default text is that of the last empty selector (proof device). -/
def DefaultIsLast (sels strs : List Str) (d : Str) : Prop :=
  sels.length = strs.length ∧
  (∀ j : Nat, sels[j]? = some [] → (∀ k : Nat, j < k → sels[k]? ≠ some []) →
    strs[j]? = some d) ∧
  ((∀ j : Nat, sels[j]? ≠ some []) → d = [])

/-- The ten decimal digit characters. -/
def digitChars : Str := "0123456789".toList

/-- A non-empty run of decimal digits (proof device). -/
def IsDigits (s : Str) : Prop := s ≠ [] ∧ ∀ c ∈ s, c ∈ digitChars

/-- Replaces the first placeholder of key `k` by the characters of `v`
(proof device). -/
def substFirst (k v : Str) : List Token → List Token
  | [] => []
  | .lit c :: ts => .lit c :: substFirst k v ts
  | .hole key :: ts =>
    if key = k then v.map Token.lit ++ ts else .hole key :: substFirst k v ts

/-- What the caches may hold: as many texts as selectors, for the same template. -/
def CacheInvariant (text : Str) (s : IString) : Prop :=
  s.selectors.length = s.strings.length ∧ s.text = text

open IString

/-! ## `find`, `format` -/

theorem find_eq_none {pat : Str} : ∀ {s : Str}, find pat s = none → ¬ pat <:+: s
  | [], h => by
    unfold find at h
    split at h
    · simp at h
    · rename_i hp
      intro hin
      exact hp (List.eq_nil_of_infix_nil hin)
  | c :: cs, h => by
    unfold find at h
    split at h
    · simp at h
    · rename_i hp
      have hcs : find pat cs = none := by simpa using h
      intro hin
      rcases List.infix_cons_iff.mp hin with hpre | hin'
      · exact hp (List.isPrefixOf_iff_prefix.mpr hpre)
      · exact find_eq_none hcs hin'

theorem find_eq_some {pat : Str} : ∀ {s : Str} {n : Nat}, find pat s = some n →
    (∃ post, s = s.take n ++ pat ++ post) ∧ n ≤ s.length ∧
      ∀ pre post, s = pre ++ pat ++ post → n ≤ pre.length
  | [], n, h => by
    unfold find at h
    split at h
    · rename_i hp
      have hn : n = 0 := by simpa using h.symm
      subst hn; subst hp
      simp
    · simp at h
  | c :: cs, n, h => by
    unfold find at h
    split at h
    · rename_i hp
      have hn : n = 0 := by simpa using h.symm
      subst hn
      obtain ⟨t, ht⟩ := List.isPrefixOf_iff_prefix.mp hp
      exact ⟨⟨t, by simpa using ht.symm⟩, Nat.zero_le _, fun _ _ _ => Nat.zero_le _⟩
    · rename_i hp
      cases hcs : find pat cs with
      | none => simp [hcs] at h
      | some m =>
        have hn : n = m + 1 := by simpa [hcs] using h.symm
        subst hn
        obtain ⟨⟨post, hpost⟩, hle, hmin⟩ := find_eq_some hcs
        refine ⟨⟨post, ?_⟩, by simpa using hle, ?_⟩
        · simp only [List.take_succ_cons, List.cons_append, List.cons.injEq, true_and]
          simpa using hpost
        · intro pre post' heq
          cases pre with
          | nil =>
            exfalso
            apply hp
            exact List.isPrefixOf_iff_prefix.mpr ⟨post', by simpa using heq.symm⟩
          | cons a pre' =>
            simp only [List.cons_append, List.cons.injEq] at heq
            have := hmin pre' post' (by simpa using heq.2)
            simpa using this

theorem find_self (s : Str) : find s s ≠ none := by
  intro h
  exact find_eq_none h (List.infix_refl s)

theorem find_singleton_none (ch : Char) :
    ∀ s : Str, (∀ c ∈ s, c ≠ ch) → find [ch] s = none
  | [], _ => by simp [find]
  | c :: t, h => by
    have hc : c ≠ ch := h c (List.mem_cons_self c t)
    have ih := find_singleton_none ch t (fun x hx => h x (List.mem_cons_of_mem c hx))
    simp [find, ih, List.isPrefixOf, Ne.symm hc]

theorem find_singleton_append (ch : Char) :
    ∀ (s rest : Str), (∀ c ∈ s, c ≠ ch) → find [ch] (s ++ ch :: rest) = some s.length
  | [], rest, _ => by simp [find, List.isPrefixOf]
  | c :: t, rest, h => by
    have hc : c ≠ ch := h c (List.mem_cons_self c t)
    have ih := find_singleton_append ch t rest (fun x hx => h x (List.mem_cons_of_mem c hx))
    simp [find, ih, List.isPrefixOf, Ne.symm hc]

theorem formatStep_of_leftmost (formatted k v pre post : Str)
    (hocc : formatted = pre ++ ('{' :: k ++ ['}']) ++ post)
    (hleft : ∀ pre' post', formatted = pre' ++ ('{' :: k ++ ['}']) ++ post' →
      pre.length ≤ pre'.length) :
    formatStep formatted (k, v) = pre ++ v ++ post := by
  unfold formatStep
  simp only
  cases hf : find ('{' :: k ++ ['}']) formatted with
  | none =>
    exact absurd ⟨pre, post, hocc.symm⟩ (find_eq_none hf)
  | some n =>
    obtain ⟨⟨post0, hpost0⟩, hle, hmin⟩ := find_eq_some hf
    have h1 : n ≤ pre.length := hmin pre post hocc
    have h2 : pre.length ≤ n := by
      have := hleft (formatted.take n) post0 hpost0
      simpa [List.length_take, Nat.min_eq_left hle] using this
    have hn : n = pre.length := Nat.le_antisymm h1 h2
    subst hn
    simp only [replace]
    generalize ('{' :: k ++ ['}'] : Str) = key at *
    subst hocc
    have ht : (pre ++ key ++ post).take pre.length = pre := by
      rw [List.append_assoc]; exact List.take_left' rfl
    have hd : (pre ++ key ++ post).drop (pre.length + key.length) = post := by
      rw [← List.length_append]; exact List.drop_left' rfl
    rw [ht, hd]

theorem formatStep_of_absent (formatted k v : Str)
    (habs : ¬ ('{' :: k ++ ['}']) <:+: formatted) :
    formatStep formatted (k, v) = formatted := by
  unfold formatStep
  simp only
  cases hf : find ('{' :: k ++ ['}']) formatted with
  | none => rfl
  | some n =>
    obtain ⟨⟨post0, hpost0⟩, -, -⟩ := find_eq_some hf
    exact absurd ⟨formatted.take n, post0, hpost0.symm⟩ habs

/-! ## The splitters -/

theorem searchDelimiter_length (delimiter : Str) :
    ∀ (source rest : Str), (searchDelimiter delimiter source).2 = some rest →
      rest.length + delimiter.length ≤ source.length ∨ rest.length < source.length
  | [], rest, h => by simp [searchDelimiter] at h
  | c :: cs, rest, h => by
    unfold searchDelimiter at h
    split at h
    · rename_i hp
      simp only [Option.some.injEq] at h
      subst h
      left
      have hle : delimiter.length ≤ (c :: cs).length :=
        (List.isPrefixOf_iff_prefix.mp hp).length_le
      simp only [List.length_drop]
      omega
    · rcases searchDelimiter_length delimiter cs rest h with h' | h'
      · left; simp only [List.length_cons]; omega
      · right; simp only [List.length_cons]; omega

theorem searchDelimiter_length_lt {delimiter : Str} (hd : delimiter ≠ []) (source rest : Str)
    (h : (searchDelimiter delimiter source).2 = some rest) : rest.length < source.length := by
  have hpos : 0 < delimiter.length := List.length_pos.mpr hd
  rcases searchDelimiter_length delimiter source rest h with h' | h' <;> omega

/-- More fuel than the length of the text left does not change the outcome of
the loop of `split`. -/
theorem splitLoop_fuel {delimiter : Str} (hd : delimiter ≠ []) :
    ∀ (fuel fuel' : Nat) (rest : Str), rest.length < fuel → rest.length < fuel' →
      splitLoop delimiter fuel rest = splitLoop delimiter fuel' rest
  | 0, _, _, h, _ => absurd h (Nat.not_lt_zero _)
  | _ + 1, 0, _, _, h => absurd h (Nat.not_lt_zero _)
  | fuel + 1, fuel' + 1, rest, h, h' => by
    simp only [splitLoop]
    cases hs : (searchDelimiter delimiter rest).2 with
    | none => rfl
    | some rest' =>
      have hlt := searchDelimiter_length_lt hd rest rest' hs
      simp only
      rw [splitLoop_fuel hd fuel fuel' rest' (by omega) (by omega)]

theorem searchDelimiter_bar_none :
    ∀ seg : Str, (∀ c ∈ seg, c ≠ '|') → searchDelimiter ['|'] seg = (seg, none)
  | [], _ => rfl
  | c :: t, h => by
    have hc : c ≠ '|' := h c (List.mem_cons_self c t)
    have ih := searchDelimiter_bar_none t (fun x hx => h x (List.mem_cons_of_mem c hx))
    simp [searchDelimiter, List.isPrefixOf, Ne.symm hc, ih]

theorem searchDelimiter_bar_some :
    ∀ (seg rest : Str), (∀ c ∈ seg, c ≠ '|') →
      searchDelimiter ['|'] (seg ++ '|' :: rest) = (seg, some rest)
  | [], rest, _ => by simp [searchDelimiter, List.isPrefixOf]
  | c :: t, rest, h => by
    have hc : c ≠ '|' := h c (List.mem_cons_self c t)
    have ih := searchDelimiter_bar_some t rest (fun x hx => h x (List.mem_cons_of_mem c hx))
    simp [searchDelimiter, List.isPrefixOf, Ne.symm hc, ih]

theorem split_bar_eq (source : Str) :
    split source ['|'] = splitLoop ['|'] (source.length + 1) source := by
  have : ¬ ((1 : Int) > LONG_MAX) := by decide
  simp [split, this]

/-- A segment without `|` at the end of the template. -/
theorem split_bar_last (seg : Str) (h : ∀ c ∈ seg, c ≠ '|') :
    split seg ['|'] = if seg ≠ [] then [cleanSegment seg] else [] := by
  rw [split_bar_eq]
  simp only [splitLoop, searchDelimiter_bar_none seg h]

/-- A segment without `|` followed by `|` and more text. -/
theorem split_bar_cons (seg rest : Str) (h : ∀ c ∈ seg, c ≠ '|') :
    split (seg ++ '|' :: rest) ['|'] =
      (if seg ≠ [] then [cleanSegment seg] else []) ++ split rest ['|'] := by
  have h1 : splitLoop ['|'] ((seg ++ '|' :: rest).length + 1) (seg ++ '|' :: rest) =
      (if seg ≠ [] then [cleanSegment seg] else []) ++
        splitLoop ['|'] (seg ++ '|' :: rest).length rest := by
    simp only [splitLoop, searchDelimiter_bar_some seg rest h]
  rw [split_bar_eq, split_bar_eq, h1,
    splitLoop_fuel (by simp) _ (rest.length + 1) rest (by simp; omega) (by simp)]

theorem cleanSegment_plain (seg : Str) (hq : ∀ c ∈ seg, c ≠ '"')
    (hcomma : seg.getLast? ≠ some ',') : cleanSegment seg = seg := by
  have hf : seg.filter (fun c => decide (c ≠ '"')) = seg :=
    List.filter_eq_self.mpr (fun c hc => by simpa using hq c hc)
  simp only [cleanSegment, hf]
  simp [hcomma]

theorem getline_length {data : Str} {delimiter : Char} {line rest : Str}
    (h : getline data delimiter = some (line, rest)) : rest.length < data.length := by
  cases data with
  | nil => simp [getline] at h
  | cons c t =>
    simp only [getline, Option.some.injEq, Prod.mk.injEq] at h
    obtain ⟨-, hrest⟩ := h
    subst hrest
    have hle := (List.dropWhile_sublist (fun x => decide (x ≠ delimiter)) (l := c :: t)).length_le
    simp only [List.length_drop, List.length_cons] at hle ⊢
    omega

/-- More fuel than the length of the unread text does not change the outcome
of the loop of `splitBySymbol`. -/
theorem splitBySymbolLoop_fuel (delimiter : Char) :
    ∀ (fuel fuel' : Nat) (data : Str), data.length < fuel → data.length < fuel' →
      splitBySymbolLoop delimiter fuel data = splitBySymbolLoop delimiter fuel' data
  | 0, _, _, h, _ => absurd h (Nat.not_lt_zero _)
  | _ + 1, 0, _, _, h => absurd h (Nat.not_lt_zero _)
  | fuel + 1, fuel' + 1, data, h, h' => by
    simp only [splitBySymbolLoop]
    cases hg : getline data delimiter with
    | none => rfl
    | some found =>
      obtain ⟨line, rest⟩ := found
      have hlt := getline_length hg
      simp only
      rw [splitBySymbolLoop_fuel delimiter fuel fuel' rest (by omega) (by omega)]

theorem splitBySymbolLoop_nil (delimiter : Char) :
    ∀ fuel : Nat, splitBySymbolLoop delimiter fuel [] = []
  | 0 => rfl
  | _ + 1 => rfl

theorem splitBySymbol_nil (delimiter : Char) : splitBySymbol [] delimiter = [] := rfl

theorem getline_plain (seg : Str) (delimiter : Char) (hne : seg ≠ [])
    (h : ∀ c ∈ seg, c ≠ delimiter) : getline seg delimiter = some (seg, []) := by
  have ht : seg.takeWhile (fun x => decide (x ≠ delimiter)) = seg :=
    List.takeWhile_eq_self_iff.mpr (fun c hc => by simpa using h c hc)
  have hd : seg.dropWhile (fun x => decide (x ≠ delimiter)) = [] :=
    List.dropWhile_eq_nil_iff.mpr (fun c hc => by simpa using h c hc)
  cases seg with
  | nil => exact absurd rfl hne
  | cons c t => simp only [getline, ht, hd, List.drop_nil]

theorem getline_append (pre post : Str) (delimiter : Char) (h : ∀ c ∈ pre, c ≠ delimiter) :
    getline (pre ++ delimiter :: post) delimiter = some (pre, post) := by
  have ht : (pre ++ delimiter :: post).takeWhile (fun x => decide (x ≠ delimiter)) = pre := by
    rw [List.takeWhile_append_of_pos (fun c hc => by simpa using h c hc)]
    simp [List.takeWhile]
  have hd : (pre ++ delimiter :: post).dropWhile (fun x => decide (x ≠ delimiter)) =
      delimiter :: post := by
    rw [List.dropWhile_append_of_pos (fun c hc => by simpa using h c hc)]
    simp [List.dropWhile]
  cases hp : pre ++ delimiter :: post with
  | nil => simp at hp
  | cons c t =>
    rw [hp] at ht hd
    simp only [getline, ht, hd, List.drop_succ_cons, List.drop_zero]

/-- A non-empty text without the delimiter is one part. -/
theorem splitBySymbol_plain (seg : Str) (delimiter : Char) (hne : seg ≠ [])
    (h : ∀ c ∈ seg, c ≠ delimiter) : splitBySymbol seg delimiter = [seg] := by
  have h1 : splitBySymbolLoop delimiter (seg.length + 1) seg =
      seg :: splitBySymbolLoop delimiter seg.length [] := by
    simp only [splitBySymbolLoop, getline_plain seg delimiter hne h]
  unfold splitBySymbol
  rw [h1, splitBySymbolLoop_nil]

/-- The text before the first delimiter is the first part. -/
theorem splitBySymbol_append (pre post : Str) (delimiter : Char)
    (h : ∀ c ∈ pre, c ≠ delimiter) :
    splitBySymbol (pre ++ delimiter :: post) delimiter = pre :: splitBySymbol post delimiter := by
  have h1 : splitBySymbolLoop delimiter ((pre ++ delimiter :: post).length + 1)
      (pre ++ delimiter :: post) =
        pre :: splitBySymbolLoop delimiter (pre ++ delimiter :: post).length post := by
    simp only [splitBySymbolLoop, getline_append pre post delimiter h]
  unfold splitBySymbol
  rw [h1, splitBySymbolLoop_fuel delimiter _ (post.length + 1) post (by simp; omega) (by simp)]

theorem getLast?_choice (sel text : Str) (ht : text ≠ []) :
    (sel ++ '#' :: text).getLast? = text.getLast? := by
  cases text with
  | nil => exact absurd rfl ht
  | cons c t =>
    rw [List.getLast?_append, List.getLast?_cons_cons]
    cases hl : (c :: t).getLast? with
    | none => simp at hl
    | some x => rfl

/-- The splitter leaves a well-formed choice before a `|` as it is. -/
theorem split_bar_cons_choice (sel text rest : Str) (hsel : ∀ c ∈ sel, c ≠ '|' ∧ c ≠ '"')
    (ht : PlainText text) :
    split ((sel ++ '#' :: text) ++ '|' :: rest) ['|'] =
      (sel ++ '#' :: text) :: split rest ['|'] := by
  obtain ⟨hne, hch, hlast⟩ := ht
  have hbar : ∀ c ∈ sel ++ '#' :: text, c ≠ '|' := by
    intro c hc
    rcases List.mem_append.mp hc with h | h
    · exact (hsel c h).1
    · rcases List.mem_cons.mp h with h | h
      · subst h; decide
      · exact (hch c h).1
  have hquote : ∀ c ∈ sel ++ '#' :: text, c ≠ '"' := by
    intro c hc
    rcases List.mem_append.mp hc with h | h
    · exact (hsel c h).2
    · rcases List.mem_cons.mp h with h | h
      · subst h; decide
      · exact (hch c h).2.2
  rw [split_bar_cons _ _ hbar, cleanSegment_plain _ hquote (by rwa [getLast?_choice sel text hne])]
  simp

/-- The splitter leaves a well-formed choice at the end as it is. -/
theorem split_bar_last_choice (sel text : Str) (hsel : ∀ c ∈ sel, c ≠ '|' ∧ c ≠ '"')
    (ht : PlainText text) :
    split (sel ++ '#' :: text) ['|'] = [sel ++ '#' :: text] := by
  obtain ⟨hne, hch, hlast⟩ := ht
  have hbar : ∀ c ∈ sel ++ '#' :: text, c ≠ '|' := by
    intro c hc
    rcases List.mem_append.mp hc with h | h
    · exact (hsel c h).1
    · rcases List.mem_cons.mp h with h | h
      · subst h; decide
      · exact (hch c h).1
  have hquote : ∀ c ∈ sel ++ '#' :: text, c ≠ '"' := by
    intro c hc
    rcases List.mem_append.mp hc with h | h
    · exact (hsel c h).2
    · rcases List.mem_cons.mp h with h | h
      · subst h; decide
      · exact (hch c h).2.2
  rw [split_bar_last _ hbar, cleanSegment_plain _ hquote (by rwa [getLast?_choice sel text hne])]
  simp

theorem splitBySymbol_choice (sel text : Str) (hsel : ∀ c ∈ sel, c ≠ '#') (hne : text ≠ [])
    (ht : ∀ c ∈ text, c ≠ '#') :
    splitBySymbol (sel ++ '#' :: text) '#' = [sel, text] := by
  rw [splitBySymbol_append sel text '#' hsel, splitBySymbol_plain text '#' hne ht]

/-! ## The parser -/

theorem parseChoicesLoop_invariant (P : List Str → List Str → Str → Prop)
    (hstep : ∀ sels strs d part0 str, P sels strs d →
      P (sels ++ [part0]) (strs ++ [str]) (if part0.length = 0 then str else d)) :
    ∀ (choices : List Str) (str : Str) (sels strs : List Str) (d : Str)
      (res : List Str × List Str × Str),
      P sels strs d → parseChoicesLoop choices str sels strs d = some res →
        P res.1 res.2.1 res.2.2
  | [], _, sels, strs, d, res, hP, h => by
    simp only [parseChoicesLoop, Option.some.injEq] at h
    subst h
    exact hP
  | choice :: rest, str, sels, strs, d, res, hP, h => by
    simp only [parseChoicesLoop] at h
    split at h
    · simp at h
    · exact parseChoicesLoop_invariant P hstep rest _ _ _ _ res (hstep _ _ _ _ _ hP) h

theorem defaultIsLast_step (sels strs : List Str) (d part0 str : Str)
    (h : DefaultIsLast sels strs d) :
    DefaultIsLast (sels ++ [part0]) (strs ++ [str]) (if part0.length = 0 then str else d) := by
  obtain ⟨hlen, hlast, hnone⟩ := h
  refine ⟨by simp [hlen], ?_, ?_⟩
  · intro j hj hlater
    by_cases hp : part0.length = 0
    · have hp0 : part0 = [] := List.length_eq_zero.mp hp
      subst hp0
      have hjn : j = sels.length := by
        rcases Nat.lt_trichotomy j sels.length with hlt | heq | hgt
        · exact absurd (by simp) (hlater sels.length hlt)
        · exact heq
        · rw [List.getElem?_eq_none (by simp; omega)] at hj
          simp at hj
      subst hjn
      simp [hlen]
    · simp only [hp, if_false]
      have hjlt : j < sels.length := by
        rcases Nat.lt_trichotomy j sels.length with hlt | heq | hgt
        · exact hlt
        · subst heq
          simp at hj
          subst hj
          simp at hp
        · rw [List.getElem?_eq_none (by simp; omega)] at hj
          simp at hj
      rw [List.getElem?_append_left hjlt] at hj
      rw [List.getElem?_append_left (by omega)]
      apply hlast j hj
      intro k hk hke
      by_cases hkl : k < sels.length
      · exact hlater k hk (by rw [List.getElem?_append_left hkl]; exact hke)
      · rw [List.getElem?_eq_none (by omega)] at hke
        simp at hke
  · intro hall
    by_cases hp : part0.length = 0
    · have hp0 : part0 = [] := List.length_eq_zero.mp hp
      subst hp0
      exact absurd (by simp) (hall sels.length)
    · simp only [hp, if_false]
      apply hnone
      intro j hj
      by_cases hjl : j < sels.length
      · exact hall j (by rw [List.getElem?_append_left hjl]; exact hj)
      · rw [List.getElem?_eq_none (by omega)] at hj
        simp at hj

theorem parseChoices_eq (self : IString) :
    parseChoices self =
      (parseChoicesLoop (split self.text ['|']) [] [] [] []).map
        (fun res => { self with selectors := res.1, strings := res.2.1,
                                defaultChoice := res.2.2 }) := by
  simp only [parseChoices, String.toList]
  cases parseChoicesLoop (split self.text ['|']) [] [] [] [] <;> rfl

theorem parseChoices_defaultIsLast (self p : IString) (h : parseChoices self = some p) :
    DefaultIsLast p.selectors p.strings p.defaultChoice := by
  rw [parseChoices_eq] at h
  cases hl : parseChoicesLoop (split self.text ['|']) [] [] [] [] with
  | none => simp [hl] at h
  | some res =>
    obtain ⟨sels, strs, d⟩ := res
    simp only [hl, Option.map_some', Option.some.injEq] at h
    subst h
    exact parseChoicesLoop_invariant DefaultIsLast defaultIsLast_step _ _ _ _ _ _
      ⟨rfl, by simp, fun _ => rfl⟩ hl

/-- One round of the loop of `parseChoices` on a well-formed choice. -/
theorem parseChoicesLoop_cons_choice (sel text : Str) (rest : List Str) (str : Str)
    (sels strs : List Str) (d : Str) (hsel : ∀ c ∈ sel, c ≠ '#') (hne : text ≠ [])
    (ht : ∀ c ∈ text, c ≠ '#') :
    parseChoicesLoop ((sel ++ '#' :: text) :: rest) str sels strs d =
      parseChoicesLoop rest text (sels ++ [sel]) (strs ++ [text])
        (if sel.length = 0 then text else d) := by
  simp only [parseChoicesLoop, splitBySymbol_choice sel text hsel hne ht]
  simp

theorem ensureParsed_new (text : Str) :
    ensureParsed (IString.new text) = parseChoices (IString.new text) := rfl

/-! ## The resolver loops -/

theorem scanFirst_spec (m : Str → Bool) (strings : List Str) :
    ∀ (sels : List Str) (i : Nat), i + sels.length ≤ strings.length →
      ∃ r, scanFirst m strings i sels = some r ∧
        (∀ (k : Nat) s, sels[k]? = some s → m s = true →
          (∀ (j : Nat) t, j < k → sels[j]? = some t → m t = false) →
            ∃ c, r = some c ∧ strings[i + k]? = some c) ∧
        ((∀ (j : Nat) t, sels[j]? = some t → m t = false) → r = none)
  | [], i, _ => ⟨none, rfl, by simp, fun _ => rfl⟩
  | s :: rest, i, hlen => by
    have hi : i < strings.length := by simp at hlen; omega
    by_cases hm : m s = true
    · refine ⟨some strings[i], by simp [scanFirst, hm, List.getElem?_eq_getElem hi], ?_, ?_⟩
      · intro k t hk hmt hbefore
        cases k with
        | zero => exact ⟨strings[i], rfl, by simp [List.getElem?_eq_getElem hi]⟩
        | succ k =>
          have := hbefore 0 s (Nat.succ_pos k) (by simp)
          simp [hm] at this
      · intro hall
        have := hall 0 s (by simp)
        simp [hm] at this
    · have hm' : m s = false := by simpa using hm
      obtain ⟨r, hr, hfirst, hnone⟩ := scanFirst_spec m strings rest (i + 1)
        (by simp at hlen ⊢; omega)
      refine ⟨r, by simp [scanFirst, hm', hr], ?_, ?_⟩
      · intro k t hk hmt hbefore
        cases k with
        | zero =>
          simp at hk
          subst hk
          simp [hm'] at hmt
        | succ k =>
          obtain ⟨c, hc, hs⟩ := hfirst k t (by simpa using hk) hmt
            (fun j u hj hu => hbefore (j + 1) u (by omega) (by simpa using hu))
          exact ⟨c, hc, by rw [← hs]; congr 1; omega⟩
      · intro hall
        exact hnone (fun j t hj => hall (j + 1) t (by simpa using hj))

theorem getChoiceBoolLoop_eq_scanFirst (strings : List Str) (reference : Bool) :
    ∀ (sels : List Str) (i : Nat),
      getChoiceBoolLoop strings reference i sels =
        scanFirst (fun s => decide (getBooleanSelector s = if reference then 1 else 0))
          strings i sels
  | [], _ => rfl
  | s :: rest, i => by
    have ih := getChoiceBoolLoop_eq_scanFirst strings reference rest (i + 1)
    simp only [getChoiceBoolLoop, scanFirst, ih]
    cases reference <;> by_cases h1 : getBooleanSelector s = 1 <;>
      by_cases h0 : getBooleanSelector s = 0 <;> simp_all

theorem getChoiceDouble_new (text : Str) (p : IString) (r : ℚ) (htext : text ≠ [])
    (hparse : parseChoices (IString.new text) = some p) :
    getChoiceDouble (IString.new text) r =
      wrapChoice p (getChoiceDoubleLoop p.strings r 0 p.selectors) := by
  unfold getChoiceDouble
  rw [if_neg (by simp [IString.new, htext]), ensureParsed_new, hparse]

theorem selectorMatches_nil (r : ℚ) : selectorMatches [] r = false := by
  simp [selectorMatches, substr2]

/-! ## Decimal numbers and the numeric parsers -/

theorem digitChar_mem (d : Nat) (h : d < 10) : Nat.digitChar d ∈ digitChars := by
  interval_cases d <;> decide

theorem digitChar_value (d : Nat) (h : d < 10) : (Nat.digitChar d).toNat - 48 = d := by
  interval_cases d <;> decide

theorem digitsValue_append_singleton (l : Str) (c : Char) :
    digitsValue (l ++ [c]) = digitsValue l * 10 + (c.toNat - 48) := by
  simp [digitsValue, List.foldl_append]

theorem toDigitsCore_spec : ∀ (fuel n : Nat) (ds : Str), n < fuel →
    ∃ l : Str, Nat.toDigitsCore 10 fuel n ds = l ++ ds ∧ l ≠ [] ∧
      (∀ c ∈ l, c ∈ digitChars) ∧ digitsValue l = n
  | 0, n, _, h => absurd h (Nat.not_lt_zero n)
  | fuel + 1, n, ds, h => by
    unfold Nat.toDigitsCore
    simp only
    split
    · rename_i h0
      refine ⟨[Nat.digitChar (n % 10)], rfl, by simp, ?_, ?_⟩
      · intro c hc
        simp only [List.mem_singleton] at hc
        subst hc
        exact digitChar_mem _ (Nat.mod_lt _ (by norm_num))
      · have : digitsValue [Nat.digitChar (n % 10)] = (Nat.digitChar (n % 10)).toNat - 48 := by
          simp [digitsValue]
        rw [this, digitChar_value _ (Nat.mod_lt _ (by norm_num))]
        omega
    · rename_i h0
      obtain ⟨l, hl, hne, hdig, hval⟩ :=
        toDigitsCore_spec fuel (n / 10) (Nat.digitChar (n % 10) :: ds) (by omega)
      refine ⟨l ++ [Nat.digitChar (n % 10)], by simp [hl], by simp, ?_, ?_⟩
      · intro c hc
        rcases List.mem_append.mp hc with hc | hc
        · exact hdig c hc
        · simp only [List.mem_singleton] at hc
          subst hc
          exact digitChar_mem _ (Nat.mod_lt _ (by norm_num))
      · rw [digitsValue_append_singleton, hval, digitChar_value _ (Nat.mod_lt _ (by norm_num))]
        omega

theorem decimal_spec (n : Nat) :
    decimal n ≠ [] ∧ (∀ c ∈ decimal n, c ∈ digitChars) ∧ digitsValue (decimal n) = n := by
  obtain ⟨l, hl, hne, hdig, hval⟩ := toDigitsCore_spec (n + 1) n [] (Nat.lt_succ_self n)
  have : decimal n = l := by simpa [decimal, Nat.toDigits] using hl
  rw [this]
  exact ⟨hne, hdig, hval⟩

theorem digitChars_props {c : Char} (h : c ∈ digitChars) :
    c.isDigit = true ∧ isspace c = false ∧ tolower c = c ∧
      c ≠ '-' ∧ c ≠ '+' ∧ c ≠ '<' ∧ c ≠ '>' ∧ c ≠ '=' ∧ c ≠ '|' ∧ c ≠ '#' ∧ c ≠ '"' ∧
      c ≠ ',' := by
  simp only [digitChars, String.toList, List.mem_cons, List.mem_singleton, List.not_mem_nil,
    or_false] at h
  rcases h with h | h | h | h | h | h | h | h | h | h <;> subst h <;> decide

theorem decimal_isDigits (n : Nat) : IsDigits (decimal n) :=
  ⟨(decimal_spec n).1, (decimal_spec n).2.1⟩

theorem IsDigits.takeWhile_isDigit {s : Str} (h : IsDigits s) :
    s.takeWhile Char.isDigit = s :=
  List.takeWhile_eq_self_iff.mpr (fun c hc => (digitChars_props (h.2 c hc)).1)

theorem IsDigits.dropWhile_isDigit {s : Str} (h : IsDigits s) :
    s.dropWhile Char.isDigit = [] :=
  List.dropWhile_eq_nil_iff.mpr (fun c hc => (digitChars_props (h.2 c hc)).1)

theorem IsDigits.dropWhile_isspace {s : Str} (h : IsDigits s) :
    s.dropWhile isspace = s := by
  obtain ⟨hne, hd⟩ := h
  cases s with
  | nil => exact absurd rfl hne
  | cons c t =>
    have := (digitChars_props (hd c (List.mem_cons_self c t))).2.1
    simp [List.dropWhile, this]

theorem IsDigits.readSign {s : Str} (h : IsDigits s) : readSign s = (false, s) := by
  obtain ⟨hne, hd⟩ := h
  cases s with
  | nil => exact absurd rfl hne
  | cons c t =>
    have hp := digitChars_props (hd c (List.mem_cons_self c t))
    simp [WebOSi18n.readSign, hp.2.2.2.1, hp.2.2.2.2.1]

theorem strtol_digits {s : Str} (h : IsDigits s) (hmax : (digitsValue s : Int) ≤ LONG_MAX) :
    strtol s = ((digitsValue s : Int), false) := by
  have hmin : ¬ (digitsValue s : Int) < LONG_MIN := by
    have : LONG_MIN ≤ 0 := by decide
    have : (0 : Int) ≤ (digitsValue s : Int) := Int.natCast_nonneg _
    omega
  simp only [strtol, h.dropWhile_isspace, h.readSign, h.takeWhile_isDigit]
  simp [not_lt.mpr hmax, hmin]

theorem parseLongToDouble_digits {s : Str} (h : IsDigits s)
    (hguard : digitsValue s ≤ 92233720368547) :
    parseLongToDouble s = (digitsValue s : ℚ) := by
  have hmax : (digitsValue s : Int) ≤ LONG_MAX := by
    have : (92233720368547 : Int) ≤ LONG_MAX := by decide
    omega
  have h1 : LONG_MAX.tdiv 100000 = 92233720368547 := by decide
  have h2 : LONG_MIN.tdiv 100000 = -92233720368547 := by decide
  simp only [parseLongToDouble, strtol_digits h hmax, h1, h2]
  have h3 : ¬ ((digitsValue s : Int) < -92233720368547) := by omega
  have h4 : ¬ ((digitsValue s : Int) > 92233720368547) := by omega
  simp [h3, h4]

theorem parseDouble_digits {s : Str} (h : IsDigits s)
    (hguard : digitsValue s ≤ 92233720368547) :
    parseDouble s = (digitsValue s : ℚ) := by
  have hne : s ≠ [] := h.1
  have hq : ((digitsValue s : ℕ) : ℚ) ≤ 92233720368547 := by exact_mod_cast hguard
  have hmax : ¬ ((digitsValue s : ℚ) > DBL_MAX) := by
    have : (92233720368547 : ℚ) ≤ DBL_MAX := by norm_num [DBL_MAX]
    linarith
  have hminv : ¬ (¬ digitsValue s = 0 ∧ (digitsValue s : ℚ) < DBL_MIN) := by
    rintro ⟨hnz, hlt⟩
    have h1 : (1 : ℚ) ≤ (digitsValue s : ℚ) := by
      exact_mod_cast Nat.one_le_iff_ne_zero.mpr hnz
    have : DBL_MIN ≤ 1 := by norm_num [DBL_MIN]
    linarith
  simp only [parseDouble, strtod, h.dropWhile_isspace, h.readSign, h.takeWhile_isDigit,
    h.dropWhile_isDigit]
  simp [hne, readExponent, hmax, hminv]

theorem equalDouble_int (r : Int) (N : Nat) (hN : N < 10 ^ 12) :
    equalDouble (r : ℚ) (N : ℚ) = true ↔ r = (N : Int) := by
  simp only [equalDouble, decide_eq_true_eq]
  constructor
  · intro h
    by_contra hne
    have h1 : (1 : Int) ≤ |r - (N : Int)| := Int.one_le_abs (sub_ne_zero.mpr hne)
    have h2 : (1 : ℚ) ≤ |(r : ℚ) - (N : ℚ)| := by exact_mod_cast h1
    have h3 : min |(r : ℚ)| |(N : ℚ)| ≤ (N : ℚ) :=
      (min_le_right _ _).trans_eq (abs_of_nonneg (Nat.cast_nonneg N))
    have h4 : (N : ℚ) < 1000000000000 := by exact_mod_cast hN
    nlinarith
  · intro h
    subst h
    simp

theorem equalsIgnoreCase_cons_ne (c d : Char) (t u : Str) (h : tolower c ≠ tolower d) :
    equalsIgnoreCase (c :: t) (d :: u) = false := by
  unfold equalsIgnoreCase
  split
  · rfl
  · simp [equalsIgnoreCaseLoop, h]

theorem digit_ne_keyword_head : ∀ c ∈ digitChars, ∀ d ∈ "tyofn".toList,
    tolower c ≠ tolower d := by decide

theorem equalsIgnoreCase_digit_single {c d : Char} (t : Str) (hc : c ∈ digitChars)
    (hd : d ∈ digitChars) :
    equalsIgnoreCase (c :: t) [d] = decide (c :: t = [d]) := by
  have h1 := (digitChars_props hc).2.2.1
  have h2 := (digitChars_props hd).2.2.1
  cases t with
  | nil =>
    by_cases hcd : c = d
    · simp [equalsIgnoreCase, equalsIgnoreCaseLoop, hcd]
    · simp [equalsIgnoreCase, equalsIgnoreCaseLoop, h1, h2, hcd]
  | cons a t => simp [equalsIgnoreCase]

theorem getBooleanSelector_digits {s : Str} (h : IsDigits s) :
    getBooleanSelector s = if s = ['1'] then 1 else if s = ['0'] then 0 else -1 := by
  obtain ⟨hne, hd⟩ := h
  cases s with
  | nil => exact absurd rfl hne
  | cons c t =>
    have hc := hd c (List.mem_cons_self c t)
    have e (d : Char) (u : Str) (hd : d ∈ "tyofn".toList) :
        equalsIgnoreCase (c :: t) (d :: u) = false :=
      equalsIgnoreCase_cons_ne c d t u (digit_ne_keyword_head c hc d hd)
    simp only [getBooleanSelector, String.toList]
    simp only [e 't' ['r', 'u', 'e'] (by decide), e 'y' ['e', 's'] (by decide),
      e 'o' ['n'] (by decide), e 'f' ['a', 'l', 's', 'e'] (by decide),
      e 'n' ['o'] (by decide), e 'o' ['f', 'f'] (by decide),
      equalsIgnoreCase_digit_single t hc (show '1' ∈ digitChars by decide),
      equalsIgnoreCase_digit_single t hc (show '0' ∈ digitChars by decide)]
    simp

theorem selectorMatches_digits {s : Str} (h : IsDigits s) (r : ℚ) :
    selectorMatches s r =
      if getBooleanSelector s > -1 then equalDouble r (getBooleanSelector s : ℚ)
      else equalDouble r (parseLongToDouble s) := by
  have hdash : find ['-'] s = none :=
    find_singleton_none '-' s (fun c hc => (digitChars_props (h.2 c hc)).2.2.2.1)
  obtain ⟨hne, hd⟩ := h
  cases s with
  | nil => exact absurd rfl hne
  | cons c t =>
    have hp := digitChars_props (hd c (List.mem_cons_self c t))
    have hlt : c ≠ '<' := hp.2.2.2.2.2.1
    have hgt : c ≠ '>' := hp.2.2.2.2.2.2.1
    simp only [selectorMatches, hdash, substr2, String.toList]
    simp [hlt, hgt]

theorem selectorMatches_less {d : Str} (h : IsDigits d) (r : ℚ) :
    selectorMatches ('<' :: d) r = decide (r < parseDouble d) := by
  obtain ⟨hne, hd⟩ := h
  cases d with
  | nil => exact absurd rfl hne
  | cons c t =>
    have hp := digitChars_props (hd c (List.mem_cons_self c t))
    have heq : c ≠ '=' := hp.2.2.2.2.2.2.2.1
    simp [selectorMatches, substr2, substr, heq]

theorem selectorMatches_greater {d : Str} (h : IsDigits d) (r : ℚ) :
    selectorMatches ('>' :: d) r = decide (r > parseDouble d) := by
  obtain ⟨hne, hd⟩ := h
  cases d with
  | nil => exact absurd rfl hne
  | cons c t =>
    have hp := digitChars_props (hd c (List.mem_cons_self c t))
    have heq : c ≠ '=' := hp.2.2.2.2.2.2.2.1
    simp [selectorMatches, substr2, substr, heq]

theorem selectorMatches_range {a b : Str} (ha : IsDigits a) (r : ℚ) :
    selectorMatches (a ++ '-' :: b) r =
      (decide (r ≥ parseLongToDouble a) && decide (r ≤ parseLongToDouble b)) := by
  have hdash : find ['-'] (a ++ '-' :: b) = some a.length :=
    find_singleton_append '-' a b (fun c hc => (digitChars_props (ha.2 c hc)).2.2.2.1)
  obtain ⟨hne, hd⟩ := ha
  cases a with
  | nil => exact absurd rfl hne
  | cons c t =>
    have hp := digitChars_props (hd c (List.mem_cons_self c t))
    have hlt : c ≠ '<' := hp.2.2.2.2.2.1
    have hgt : c ≠ '>' := hp.2.2.2.2.2.2.1
    simp only [List.cons_append] at hdash ⊢
    simp only [selectorMatches, hdash, substr2, substr, String.toList]
    simp [hlt, hgt]

theorem digits_selector_chars {d : Str} (h : IsDigits d) :
    ∀ c ∈ d, c ≠ '|' ∧ c ≠ '"' ∧ c ≠ '#' := fun c hc =>
  have hp := digitChars_props (h.2 c hc)
  ⟨hp.2.2.2.2.2.2.2.2.1, hp.2.2.2.2.2.2.2.2.2.2.1, hp.2.2.2.2.2.2.2.2.2.1⟩

theorem parseChoices_rangeTemplate (A B : Nat) (s m l : Str) (hs : PlainText s)
    (hm : PlainText m) (hl : PlainText l) :
    parseChoices (IString.new (rangeTemplate A B s m l)) =
      some { text := rangeTemplate A B s m l,
             selectors := ['<' :: decimal A, decimal A ++ '-' :: decimal B, '>' :: decimal B],
             strings := [s, m, l],
             defaultChoice := [],
             patterns := [] } := by
  have hA := digits_selector_chars (decimal_isDigits A)
  have hB := digits_selector_chars (decimal_isDigits B)
  have h1 : ∀ c ∈ '<' :: decimal A, c ≠ '|' ∧ c ≠ '"' ∧ c ≠ '#' := by
    intro c hc
    rcases List.mem_cons.mp hc with h | h
    · subst h; decide
    · exact hA c h
  have h2 : ∀ c ∈ decimal A ++ '-' :: decimal B, c ≠ '|' ∧ c ≠ '"' ∧ c ≠ '#' := by
    intro c hc
    rcases List.mem_append.mp hc with h | h
    · exact hA c h
    · rcases List.mem_cons.mp h with h | h
      · subst h; decide
      · exact hB c h
  have h3 : ∀ c ∈ '>' :: decimal B, c ≠ '|' ∧ c ≠ '"' ∧ c ≠ '#' := by
    intro c hc
    rcases List.mem_cons.mp hc with h | h
    · subst h; decide
    · exact hB c h
  have hsplit : split (rangeTemplate A B s m l) ['|'] =
      [('<' :: decimal A) ++ '#' :: s, (decimal A ++ '-' :: decimal B) ++ '#' :: m,
        ('>' :: decimal B) ++ '#' :: l] := by
    have e : rangeTemplate A B s m l =
        (('<' :: decimal A) ++ '#' :: s) ++ '|' ::
          (((decimal A ++ '-' :: decimal B) ++ '#' :: m) ++ '|' ::
            (('>' :: decimal B) ++ '#' :: l)) := by
      simp [rangeTemplate]
    rw [e, split_bar_cons_choice _ _ _ (fun c hc => ⟨(h1 c hc).1, (h1 c hc).2.1⟩) hs,
      split_bar_cons_choice _ _ _ (fun c hc => ⟨(h2 c hc).1, (h2 c hc).2.1⟩) hm,
      split_bar_last_choice _ _ (fun c hc => ⟨(h3 c hc).1, (h3 c hc).2.1⟩) hl]
  rw [parseChoices_eq]
  show Option.map _ (parseChoicesLoop (split (rangeTemplate A B s m l) ['|']) [] [] [] []) = _
  rw [hsplit,
    parseChoicesLoop_cons_choice _ _ _ _ _ _ _ (fun c hc => (h1 c hc).2.2) hs.1
      (fun c hc => (hs.2.1 c hc).2.1),
    parseChoicesLoop_cons_choice _ _ _ _ _ _ _ (fun c hc => (h2 c hc).2.2) hm.1
      (fun c hc => (hm.2.1 c hc).2.1),
    parseChoicesLoop_cons_choice _ _ _ _ _ _ _ (fun c hc => (h3 c hc).2.2) hl.1
      (fun c hc => (hl.2.1 c hc).2.1)]
  have hAne : decimal A ≠ [] := (decimal_isDigits A).1
  simp [parseChoicesLoop, IString.new, hAne]

theorem getChoiceDouble_rangeTemplate (A B : Nat) (hA : A ≤ 92233720368547)
    (hB : B ≤ 92233720368547) (s m l : Str) (hs : PlainText s) (hm : PlainText m)
    (hl : PlainText l) (r : ℚ) :
    (getChoiceDouble (IString.new (rangeTemplate A B s m l)) r).map
        (fun res => res.1.map IString.toString) =
      some (some (if r < (A : ℚ) then s
        else if (A : ℚ) ≤ r ∧ r ≤ (B : ℚ) then m
        else if (B : ℚ) < r then l else [])) := by
  have hdA := decimal_isDigits A
  have hdB := decimal_isDigits B
  have hvA := (decimal_spec A).2.2
  have hvB := (decimal_spec B).2.2
  have hparse := parseChoices_rangeTemplate A B s m l hs hm hl
  have hne : (IString.new (rangeTemplate A B s m l)).text ≠ [] := by
    simp [IString.new, rangeTemplate]
  have h1 : selectorMatches ('<' :: decimal A) r = decide (r < (A : ℚ)) := by
    rw [selectorMatches_less hdA, parseDouble_digits hdA (by rw [hvA]; exact hA), hvA]
  have h2 : selectorMatches (decimal A ++ '-' :: decimal B) r =
      (decide (r ≥ (A : ℚ)) && decide (r ≤ (B : ℚ))) := by
    rw [selectorMatches_range hdA, parseLongToDouble_digits hdA (by rw [hvA]; exact hA),
      parseLongToDouble_digits hdB (by rw [hvB]; exact hB), hvA, hvB]
  have h3 : selectorMatches ('>' :: decimal B) r = decide (r > (B : ℚ)) := by
    rw [selectorMatches_greater hdB, parseDouble_digits hdB (by rw [hvB]; exact hB), hvB]
  have hne' : rangeTemplate A B s m l ≠ [] := hne
  unfold getChoiceDouble
  rw [if_neg (by simp [IString.new, hne']), ensureParsed_new, hparse]
  simp only [getChoiceDoubleLoop, h1, h2, h3]
  by_cases c1 : r < (A : ℚ)
  · simp [c1, wrapChoice, IString.new, IString.toString]
  · by_cases c2 : (A : ℚ) ≤ r ∧ r ≤ (B : ℚ)
    · simp [c1, c2, wrapChoice, IString.new, IString.toString]
    · by_cases c3 : (B : ℚ) < r
      · have c2' : ¬ ((A : ℚ) ≤ r ∧ r ≤ (B : ℚ)) := c2
        simp only [not_and, not_le] at c2'
        simp [c1, c2, c3, wrapChoice, IString.new, IString.toString]
      · exfalso
        exact c2 ⟨not_lt.mp c1, not_lt.mp c3⟩

/-! ## Case-insensitive comparison and boolean keywords -/

theorem equalsIgnoreCaseLoop_iff :
    ∀ (a b : Str), a.length = b.length →
      (equalsIgnoreCaseLoop a b = true ↔ to_lower a = to_lower b)
  | [], [], _ => by simp [equalsIgnoreCaseLoop, to_lower]
  | [], _ :: _, h => by simp at h
  | _ :: _, [], h => by simp at h
  | c :: a, d :: b, h => by
    have ih := equalsIgnoreCaseLoop_iff a b (by simpa using h)
    by_cases hcd : tolower c = tolower d
    · simp only [equalsIgnoreCaseLoop, hcd, ne_eq, not_true_eq_false, if_false, ih]
      simp [to_lower, hcd]
    · simp [equalsIgnoreCaseLoop, hcd, to_lower]

theorem equalsIgnoreCase_iff (a b : Str) :
    equalsIgnoreCase a b = true ↔ a.length = b.length ∧ to_lower a = to_lower b := by
  unfold equalsIgnoreCase
  by_cases h : a.length = b.length
  · simp only [h, ne_eq, not_true_eq_false, if_false, true_and]
    exact equalsIgnoreCaseLoop_iff a b h
  · simp [h]

theorem equalsIgnoreCase_keyword (s kw : Str) (hkw : to_lower kw = kw) :
    equalsIgnoreCase s kw = true ↔ to_lower s = kw := by
  rw [equalsIgnoreCase_iff, hkw]
  constructor
  · exact fun h => h.2
  · intro h
    refine ⟨?_, h⟩
    have := congrArg List.length h
    simpa [to_lower] using this

theorem getBooleanSelector_eq (s : Str) :
    getBooleanSelector s =
      if to_lower s ∈ ["true".toList, "yes".toList, "on".toList, "1".toList] then 1
      else if to_lower s ∈ ["false".toList, "no".toList, "off".toList, "0".toList] then 0
      else -1 := by
  have e (kw : Str) (hkw : to_lower kw = kw) :
      equalsIgnoreCase s kw = decide (to_lower s = kw) := by
    rw [Bool.eq_iff_iff, equalsIgnoreCase_keyword s kw hkw]
    simp
  simp only [getBooleanSelector, e _ (show to_lower "true".toList = "true".toList by decide),
    e _ (show to_lower "yes".toList = "yes".toList by decide),
    e _ (show to_lower "on".toList = "on".toList by decide),
    e _ (show to_lower "1".toList = "1".toList by decide),
    e _ (show to_lower "false".toList = "false".toList by decide),
    e _ (show to_lower "no".toList = "no".toList by decide),
    e _ (show to_lower "off".toList = "off".toList by decide),
    e _ (show to_lower "0".toList = "0".toList by decide)]
  simp only [Bool.or_eq_true, decide_eq_true_eq, List.mem_cons, List.mem_singleton,
    List.not_mem_nil, or_false, or_assoc]

theorem getBooleanSelector_ge (s : Str) : -1 ≤ getBooleanSelector s := by
  unfold getBooleanSelector
  split
  · decide
  · split <;> decide

/-! ## Tolerance equality and the exact selectors -/

theorem equalDouble_zero_right (a : ℚ) : equalDouble a 0 = true ↔ a = 0 := by
  simp only [equalDouble, decide_eq_true_eq, sub_zero, abs_zero]
  constructor
  · intro h
    have h1 : min |a| 0 ≤ 0 := min_le_right _ _
    have h2 : 0 ≤ |a| := abs_nonneg a
    have h3 : |a| * 1000000000000 ≤ 0 := le_trans h h1
    have h4 : |a| = 0 := by nlinarith
    exact abs_eq_zero.mp h4
  · intro h
    subst h
    simp

theorem equalDouble_zero_left (a : ℚ) : equalDouble 0 a = true ↔ a = 0 := by
  simp only [equalDouble, decide_eq_true_eq, zero_sub, abs_neg, abs_zero]
  constructor
  · intro h
    have h1 : min 0 |a| ≤ 0 := min_le_left _ _
    have h2 : 0 ≤ |a| := abs_nonneg a
    have h3 : |a| * 1000000000000 ≤ 0 := le_trans h h1
    have h4 : |a| = 0 := by nlinarith
    exact abs_eq_zero.mp h4
  · intro h
    subst h
    simp

theorem equalDouble_neg_nonneg (r v : ℚ) (hr : r < 0) (hv : 0 ≤ v) :
    equalDouble r v = false := by
  simp only [equalDouble, decide_eq_false_iff_not, not_le]
  have h1 : |r - v| = v - r := by
    rw [abs_of_nonpos (by linarith)]; ring
  have h2 : min |r| |v| ≤ -r := by
    rw [abs_of_neg hr]; exact min_le_left _ _
  rw [h1]
  nlinarith

/-- A selector that is a boolean keyword and has no comparison sign or dash is
tested by `equalDouble` against its class. -/
theorem selectorMatches_keyword (sel : Str) (r : ℚ) (hne : sel ≠ [])
    (hlt : sel.head? ≠ some '<') (hgt : sel.head? ≠ some '>')
    (hdash : find ['-'] sel = none) (hkw : getBooleanSelector sel > -1) :
    selectorMatches sel r = equalDouble r (getBooleanSelector sel : ℚ) := by
  cases sel with
  | nil => exact absurd rfl hne
  | cons c t =>
    have h1 : c ≠ '<' := fun h => hlt (by simp [h])
    have h2 : c ≠ '>' := fun h => hgt (by simp [h])
    simp only [selectorMatches, hdash, substr2, String.toList]
    simp [h1, h2, hkw]

theorem selectorMatches_one (r : ℚ) : selectorMatches ['1'] r = equalDouble r 1 := by
  have h := selectorMatches_keyword ['1'] r (by decide) (by decide) (by decide) (by decide)
    (by decide)
  rw [h]
  have : getBooleanSelector ['1'] = 1 := by decide
  rw [this]
  norm_num

theorem parseLongToDouble_nil : parseLongToDouble [] = 0 := by
  have h : strtol [] = (0, false) := by decide
  simp [parseLongToDouble, h]

theorem not_mem_of_find_singleton_none {ch : Char} {s : Str} (h : find [ch] s = none) :
    ∀ c ∈ s, c ≠ ch := by
  intro c hc hcc
  subst hcc
  obtain ⟨a, b, hab⟩ := List.append_of_mem hc
  exact find_eq_none h ⟨a, b, by simp [hab]⟩

theorem readSign_of_no_dash (s : Str) (h : ∀ c ∈ s, c ≠ '-') : (readSign s).1 = false := by
  cases s with
  | nil => rfl
  | cons c t =>
    have hc : c ≠ '-' := h c (List.mem_cons_self c t)
    unfold readSign
    simp only [hc, if_false]
    split <;> rfl

theorem strtol_nonneg_of_no_dash (s : Str) (h : ∀ c ∈ s, c ≠ '-') : 0 ≤ (strtol s).1 := by
  have hs : (readSign (s.dropWhile isspace)).1 = false :=
    readSign_of_no_dash _ (fun c hc => h c ((List.dropWhile_sublist _).subset hc))
  have hmax : (0 : Int) ≤ LONG_MAX := by decide
  have hmin : LONG_MIN ≤ 0 := by decide
  simp only [strtol, hs, Bool.false_eq_true, if_false]
  generalize digitsValue (List.takeWhile Char.isDigit (readSign (List.dropWhile isspace s)).2)
    = n
  have hn : (0 : Int) ≤ (n : Int) := Int.natCast_nonneg n
  by_cases h1 : (n : Int) > LONG_MAX
  · simp only [h1, if_true]
    exact hmax
  · have h2 : ¬ (n : Int) < LONG_MIN := by omega
    simp only [h1, h2, if_false]
    exact hn

theorem parseLongToDouble_nonneg_of_no_dash (s : Str) (h : ∀ c ∈ s, c ≠ '-') :
    0 ≤ parseLongToDouble s := by
  unfold parseLongToDouble
  simp only
  split
  · exact le_refl 0
  · exact_mod_cast strtol_nonneg_of_no_dash s h

/-- A selector that is neither a comparison nor a range is tested by
`equalDouble`, against its boolean class or the integer it parses to. -/
theorem selectorMatches_exact_form (sel : Str) (r : ℚ)
    (hcmp : ¬ (sel.length > 1 ∧ (sel.head? = some '<' ∨ sel.head? = some '>')))
    (hdash : find ['-'] sel = none) (hne : sel ≠ []) :
    selectorMatches sel r =
      if getBooleanSelector sel > -1 then equalDouble r (getBooleanSelector sel : ℚ)
      else equalDouble r (parseLongToDouble sel) := by
  cases sel with
  | nil => exact absurd rfl hne
  | cons c t =>
    by_cases ht : t = []
    · subst ht
      simp only [selectorMatches, hdash, substr2, String.toList]
      simp
    · have hlen : (c :: t).length > 1 := by
        cases t with
        | nil => exact absurd rfl ht
        | cons a u => simp
      have h1 : c ≠ '<' := fun h => hcmp ⟨hlen, Or.inl (by simp [h])⟩
      have h2 : c ≠ '>' := fun h => hcmp ⟨hlen, Or.inr (by simp [h])⟩
      simp only [selectorMatches, hdash, substr2, String.toList]
      simp [h1, h2]

/-! ## Results of the resolvers and the parse cache -/

theorem parseChoices_text_patterns (self p : IString) (h : parseChoices self = some p) :
    p.text = self.text ∧ p.patterns = self.patterns := by
  rw [parseChoices_eq] at h
  cases hl : parseChoicesLoop (split self.text ['|']) [] [] [] [] with
  | none => simp [hl] at h
  | some res =>
    simp only [hl, Option.map_some', Option.some.injEq] at h
    subst h
    exact ⟨rfl, rfl⟩

theorem ensurePatterns_fields (regexCompiles : Str → Bool) (self : IString) :
    (ensurePatterns regexCompiles self).1.text = self.text ∧
    (ensurePatterns regexCompiles self).1.selectors = self.selectors ∧
    (ensurePatterns regexCompiles self).1.strings = self.strings ∧
    (ensurePatterns regexCompiles self).1.defaultChoice = self.defaultChoice := by
  unfold ensurePatterns
  split <;> exact ⟨rfl, rfl, rfl, rfl⟩

theorem parseChoicesLoop_length :
    ∀ (choices : List Str) (str : Str) (sels strs : List Str) (d : Str)
      (res : List Str × List Str × Str),
      parseChoicesLoop choices str sels strs d = some res →
        res.1.length = sels.length + choices.length ∧
        res.2.1.length = strs.length + choices.length
  | [], _, sels, strs, d, res, h => by
    simp only [parseChoicesLoop, Option.some.injEq] at h
    subst h
    simp
  | choice :: rest, str, sels, strs, d, res, h => by
    simp only [parseChoicesLoop] at h
    split at h
    · simp at h
    · obtain ⟨h1, h2⟩ := parseChoicesLoop_length rest _ _ _ _ res h
      simp only [List.length_append, List.length_cons, List.length_nil] at h1 h2 ⊢
      constructor <;> omega

theorem parseChoices_length (self p : IString) (h : parseChoices self = some p) :
    p.selectors.length = (split self.text ['|']).length ∧
    p.strings.length = (split self.text ['|']).length := by
  rw [parseChoices_eq] at h
  cases hl : parseChoicesLoop (split self.text ['|']) [] [] [] [] with
  | none => simp [hl] at h
  | some res =>
    simp only [hl, Option.map_some', Option.some.injEq] at h
    subst h
    simpa using parseChoicesLoop_length _ _ _ _ _ _ hl

theorem cacheInvariant_parseChoices {text : Str} {s s' : IString} (hs : CacheInvariant text s)
    (h : parseChoices s = some s') : CacheInvariant text s' :=
  ⟨(parseChoices_defaultIsLast s s' h).1, (parseChoices_text_patterns s s' h).1.trans hs.2⟩

theorem cacheInvariant_ensureParsed {text : Str} {s s' : IString} (hs : CacheInvariant text s)
    (h : ensureParsed s = some s') : CacheInvariant text s' := by
  unfold ensureParsed at h
  split at h
  · exact cacheInvariant_parseChoices hs h
  · simp only [Option.some.injEq] at h
    subst h
    exact hs

theorem wrapChoice_state {self s' : IString} {o : Option (Option Str)}
    {result : Option IString} (h : wrapChoice self o = some (result, s')) : s' = self := by
  rcases o with _ | _ | c <;> simp [wrapChoice] at h <;> exact h.2.symm

theorem cacheInvariant_ensurePatterns {text : Str} {s : IString}
    (regexCompiles : Str → Bool) (hs : CacheInvariant text s) :
    CacheInvariant text (ensurePatterns regexCompiles s).1 := by
  obtain ⟨h1, h2, h3, -⟩ := ensurePatterns_fields regexCompiles s
  unfold CacheInvariant
  rw [h1, h2, h3]
  exact hs

theorem cacheInvariant_step {regexCompiles : Str → Bool}
    {regexSearch : Str → Str → Option Str} {text : Str}
    {s s' : IString} (hs : CacheInvariant text s)
    (h : Step regexCompiles regexSearch s s') : CacheInvariant text s' := by
  cases h with
  | parseChoices h => exact cacheInvariant_parseChoices hs h
  | getChoiceBool reference result h =>
    unfold IString.getChoiceBool at h
    split at h
    · simp only [Option.some.injEq, Prod.mk.injEq] at h
      rw [← h.2]; exact hs
    · cases hp : ensureParsed s with
      | none => simp [hp] at h
      | some parsed =>
        simp only [hp] at h
        rw [wrapChoice_state h]
        exact cacheInvariant_ensureParsed hs hp
  | getChoiceString reference result h =>
    unfold IString.getChoiceString at h
    split at h
    · simp only [Option.some.injEq, Prod.mk.injEq] at h
      rw [← h.2]; exact hs
    · cases hp : ensureParsed s with
      | none => simp [hp] at h
      | some parsed =>
        have hinv := cacheInvariant_ensureParsed hs hp
        have hpat := cacheInvariant_ensurePatterns regexCompiles hinv
        simp only [hp] at h
        split at h
        · split at h
          · rw [wrapChoice_state h]; exact hpat
          · rw [wrapChoice_state h]; exact hpat
        · simp at h
  | getChoiceStringThrown h =>
    unfold IString.getChoiceStringThrown at h
    split at h
    · simp at h
    · cases hp : ensureParsed s with
      | none => simp [hp] at h
      | some parsed =>
        have hinv := cacheInvariant_ensureParsed hs hp
        have hpat := cacheInvariant_ensurePatterns regexCompiles hinv
        simp only [hp] at h
        split at h
        · simp at h
        · simp only [Option.some.injEq] at h
          rw [← h]; exact hpat
  | getChoiceDouble reference result h =>
    unfold IString.getChoiceDouble at h
    split at h
    · simp only [Option.some.injEq, Prod.mk.injEq] at h
      rw [← h.2]; exact hs
    · cases hp : ensureParsed s with
      | none => simp [hp] at h
      | some parsed =>
        simp only [hp] at h
        rw [wrapChoice_state h]
        exact cacheInvariant_ensureParsed hs hp

theorem reachable_cacheInvariant {regexCompiles : Str → Bool}
    {regexSearch : Str → Str → Option Str} {text : Str} {s : IString}
    (h : Reachable regexCompiles regexSearch text s) : CacheInvariant text s := by
  induction h with
  | construct => exact ⟨rfl, rfl⟩
  | call _ hstep ih => exact cacheInvariant_step ih hstep

/-! ## Substitution on texts with flat braces -/

theorem format_eq_foldl (self : IString) (values : List (Str × Str)) :
    format self values = values.foldl formatStep self.text := by
  cases values <;> rfl

theorem find_of_isPrefixOf (pat : Str) :
    ∀ s : Str, pat.isPrefixOf s = true → find pat s = some 0
  | [], h => by
    cases pat with
    | nil => simp [find]
    | cons a t => simp [List.isPrefixOf] at h
  | c :: cs, h => by simp only [find, h, if_true]

theorem find_cons_of_not_isPrefixOf (pat : Str) (c : Char) (y : Str)
    (h : pat.isPrefixOf (c :: y) = false) :
    find pat (c :: y) = (find pat y).map (· + 1) := by
  simp only [find, h, Bool.false_eq_true, if_false]

theorem replace_cons_succ (c : Char) (y : Str) (n len : Nat) (v : Str) :
    replace (c :: y) (n + 1) len v = c :: replace y n len v := by
  have : n + 1 + len = (n + len) + 1 := by omega
  simp only [replace, List.take_succ_cons, List.cons_append, this, List.drop_succ_cons]

theorem formatStep_cons_of_not_prefix (c : Char) (y k v : Str)
    (h : ('{' :: k ++ ['}']).isPrefixOf (c :: y) = false) :
    formatStep (c :: y) (k, v) = c :: formatStep y (k, v) := by
  unfold formatStep
  simp only
  rw [find_cons_of_not_isPrefixOf _ c y h]
  cases find ('{' :: k ++ ['}']) y with
  | none => rfl
  | some n => exact replace_cons_succ c y n _ v

theorem formatStep_append_of_no_open (k v : Str) :
    ∀ (x y : Str), (∀ c ∈ x, c ≠ '{') → formatStep (x ++ y) (k, v) = x ++ formatStep y (k, v)
  | [], _, _ => rfl
  | c :: x, y, h => by
    have hc : c ≠ '{' := h c (List.mem_cons_self c x)
    have hp : ('{' :: k ++ ['}']).isPrefixOf (c :: (x ++ y)) = false := by
      simp [List.isPrefixOf, Ne.symm hc]
    rw [List.cons_append, formatStep_cons_of_not_prefix c (x ++ y) k v hp,
      formatStep_append_of_no_open k v x y (fun a ha => h a (List.mem_cons_of_mem c ha))]
    rfl

theorem formatStep_hole_same (k v rest : Str) :
    formatStep (('{' :: k ++ ['}']) ++ rest) (k, v) = v ++ rest := by
  have hf : find ('{' :: k ++ ['}']) (('{' :: k ++ ['}']) ++ rest) = some 0 :=
    find_of_isPrefixOf _ _ (List.isPrefixOf_iff_prefix.mpr (List.prefix_append _ _))
  unfold formatStep
  simp only [hf, replace, List.take_zero, List.nil_append, Nat.zero_add]
  rw [List.drop_left]

theorem placeholder_key_eq :
    ∀ (k k' rest : Str), BraceFree k → BraceFree k' →
      (k ++ ['}']) <+: (k' ++ '}' :: rest) → k = k'
  | [], [], _, _, _, _ => rfl
  | [], c :: k', rest, _, hk', h => by
    obtain ⟨t, ht⟩ := h
    simp only [List.nil_append, List.cons_append, List.cons.injEq] at ht
    exact absurd ht.1.symm (hk' c (List.mem_cons_self c k')).2
  | c :: k, [], rest, hk, _, h => by
    obtain ⟨t, ht⟩ := h
    simp only [List.nil_append, List.cons_append, List.cons.injEq] at ht
    exact absurd ht.1 (hk c (List.mem_cons_self c k)).2
  | c :: k, d :: k', rest, hk, hk', h => by
    obtain ⟨t, ht⟩ := h
    simp only [List.cons_append, List.cons.injEq] at ht
    obtain ⟨hcd, ht⟩ := ht
    subst hcd
    rw [placeholder_key_eq k k' rest (fun a ha => hk a (List.mem_cons_of_mem c ha))
      (fun a ha => hk' a (List.mem_cons_of_mem c ha)) ⟨t, by simpa using ht⟩]

theorem render_append : ∀ (a b : List Token), render (a ++ b) = render a ++ render b
  | [], _ => rfl
  | t :: a, b => by simp [render, render_append a b]

theorem render_map_lit : ∀ v : Str, render (v.map Token.lit) = v
  | [] => rfl
  | c :: v => by simp [render, Token.render, render_map_lit v]

/-- On a text with flat braces the loop body of `format` replaces the first
placeholder piece of the key. -/
theorem formatStep_render (k v : Str) (hk : BraceFree k) :
    ∀ toks : List Token, (∀ t ∈ toks, t.WellFormed) →
      formatStep (render toks) (k, v) = render (substFirst k v toks)
  | [], _ => by
    simp [render, substFirst, formatStep, find]
  | .lit c :: ts, h => by
    have hc : c ≠ '{' := (h (.lit c) (List.mem_cons_self _ _)).1
    have ih := formatStep_render k v hk ts (fun t ht => h t (List.mem_cons_of_mem _ ht))
    have := formatStep_append_of_no_open k v [c] (render ts) (by simpa using hc)
    simp only [render, Token.render, substFirst]
    rw [this, ih]
  | .hole key :: ts, h => by
    have hkey : BraceFree key := h (.hole key) (List.mem_cons_self _ _)
    have ih := formatStep_render k v hk ts (fun t ht => h t (List.mem_cons_of_mem _ ht))
    by_cases hkk : key = k
    · subst hkk
      simp only [render, Token.render, substFirst, if_true]
      rw [formatStep_hole_same, render_append, render_map_lit]
    · have hp : ('{' :: k ++ ['}']).isPrefixOf ('{' :: ((key ++ ['}']) ++ render ts)) = false := by
        rw [Bool.eq_false_iff]
        intro hpre
        have hpre' := List.isPrefixOf_iff_prefix.mp hpre
        rw [List.cons_append, List.prefix_cons_inj] at hpre'
        apply hkk
        exact (placeholder_key_eq k key (render ts) hk hkey (by simpa using hpre')).symm
      have hx : ∀ c ∈ key ++ ['}'], c ≠ '{' := by
        intro c hc
        rcases List.mem_append.mp hc with hc | hc
        · exact (hkey c hc).1
        · simp only [List.mem_singleton] at hc
          subst hc
          decide
      have e : render (Token.hole key :: ts) = '{' :: ((key ++ ['}']) ++ render ts) := by
        simp [render, Token.render]
      rw [e, formatStep_cons_of_not_prefix _ _ k v hp,
        formatStep_append_of_no_open k v _ _ hx, ih]
      simp [substFirst, hkk, render, Token.render]

theorem substFirst_lits (k v w : Str) (ts : List Token) :
    substFirst k v (w.map Token.lit ++ ts) = w.map Token.lit ++ substFirst k v ts := by
  induction w with
  | nil => rfl
  | cons c w ih => simp [substFirst, ih]

theorem substFirst_comm (k1 v1 k2 v2 : Str) (hne : k1 ≠ k2) :
    ∀ toks : List Token,
      substFirst k2 v2 (substFirst k1 v1 toks) = substFirst k1 v1 (substFirst k2 v2 toks)
  | [] => rfl
  | .lit c :: ts => by simp [substFirst, substFirst_comm k1 v1 k2 v2 hne ts]
  | .hole key :: ts => by
    by_cases h1 : key = k1
    · have h2 : ¬ key = k2 := fun h => hne (h1.symm.trans h)
      simp [substFirst, h1, h2, substFirst_lits, hne]
    · by_cases h2 : key = k2
      · simp [substFirst, h1, h2, substFirst_lits, Ne.symm hne]
      · simp [substFirst, h1, h2, substFirst_comm k1 v1 k2 v2 hne ts]

theorem substFirst_wellFormed (k v : Str) (hv : BraceFree v) :
    ∀ toks : List Token, (∀ t ∈ toks, t.WellFormed) → ∀ t ∈ substFirst k v toks, t.WellFormed
  | [], _ => by simp [substFirst]
  | .lit c :: ts, h => by
    have ih := substFirst_wellFormed k v hv ts (fun t ht => h t (List.mem_cons_of_mem _ ht))
    intro t ht
    simp only [substFirst, List.mem_cons] at ht
    rcases ht with ht | ht
    · subst ht; exact h _ (List.mem_cons_self _ _)
    · exact ih t ht
  | .hole key :: ts, h => by
    have ih := substFirst_wellFormed k v hv ts (fun t ht => h t (List.mem_cons_of_mem _ ht))
    intro t ht
    simp only [substFirst] at ht
    split at ht
    · rcases List.mem_append.mp ht with ht | ht
      · obtain ⟨c, hc, rfl⟩ := List.mem_map.mp ht
        exact hv c hc
      · exact h t (List.mem_cons_of_mem _ ht)
    · rcases List.mem_cons.mp ht with ht | ht
      · subst ht; exact h _ (List.mem_cons_self _ _)
      · exact ih t ht

theorem foldl_formatStep_render :
    ∀ (values : List (Str × Str)) (toks : List Token),
      (∀ e ∈ values, BraceFree e.1 ∧ BraceFree e.2) → (∀ t ∈ toks, t.WellFormed) →
      values.foldl formatStep (render toks) =
        render (values.foldl (fun ts e => substFirst e.1 e.2 ts) toks)
  | [], _, _, _ => rfl
  | e :: values, toks, he, hwf => by
    have h1 := he e (List.mem_cons_self _ _)
    simp only [List.foldl_cons]
    rw [show formatStep (render toks) e = formatStep (render toks) (e.1, e.2) from rfl,
      formatStep_render e.1 e.2 h1.1 toks hwf]
    exact foldl_formatStep_render values _ (fun a ha => he a (List.mem_cons_of_mem _ ha))
      (substFirst_wellFormed e.1 e.2 h1.2 toks hwf)

/-! ## The boolean and the string resolver after a completed parse -/

/-- Boolean resolution after a completed parse.  On a non-empty template that
`parseChoices` turns into `p`, `getChoice(bool)` returns a text `chosen` which is `p.strings[i]` at the least index
`i` whose selector classifies as the reference (1 for true, 0 for false), and
`p.defaultChoice` when no selector does; a selector classified as -1 never matches. -/
theorem getChoiceBool_first_match (text : Str) (reference : Bool) (p : IString)
    (htext : text ≠ []) (hparse : parseChoices (IString.new text) = some p) :
    ∃ chosen, getChoiceBool (IString.new text) reference = some (some (IString.new chosen), p) ∧
      (∀ (i : Nat) sel, p.selectors[i]? = some sel →
        getBooleanSelector sel = (if reference then 1 else 0) →
        (∀ (j : Nat) t, j < i → p.selectors[j]? = some t →
          getBooleanSelector t ≠ (if reference then 1 else 0)) →
        p.strings[i]? = some chosen) ∧
      ((∀ (j : Nat) t, p.selectors[j]? = some t →
          getBooleanSelector t ≠ (if reference then 1 else 0)) →
        chosen = p.defaultChoice) := by
  have hlen : p.selectors.length = p.strings.length := (parseChoices_defaultIsLast _ p hparse).1
  obtain ⟨r, hr, hfirst, hnone⟩ :=
    scanFirst_spec (fun s => decide (getBooleanSelector s = if reference then 1 else 0))
      p.strings p.selectors 0 (by omega)
  have hget : getChoiceBool (IString.new text) reference = wrapChoice p (some r) := by
    have hne : (IString.new text).text ≠ [] := htext
    simp only [getChoiceBool, ensureParsed_new, hparse, getChoiceBoolLoop_eq_scanFirst, hr]
    simp [hne]
  cases r with
  | some c =>
    refine ⟨c, by rw [hget]; rfl, ?_, ?_⟩
    · intro i sel hi hsel hbefore
      obtain ⟨c', hc', hs⟩ := hfirst i sel hi (by simpa using hsel)
        (fun j t hj ht => by simpa using hbefore j t hj ht)
      simp only [Option.some.injEq] at hc'
      subst hc'
      simpa using hs
    · intro hall
      have := hnone (fun j t ht => by simpa using hall j t ht)
      simp at this
  | none =>
    refine ⟨p.defaultChoice, by rw [hget]; rfl, ?_, fun _ => rfl⟩
    intro i sel hi hsel hbefore
    obtain ⟨c', hc', -⟩ := hfirst i sel hi (by simpa using hsel)
      (fun j t hj ht => by simpa using hbefore j t hj ht)
    simp at hc'

/-- Example of the boolean resolution: `true#Yes|false#No` gives `Yes` for true and `No` for false. -/
theorem getChoiceBool_first_match_example :
    getChoiceBool (IString.new "true#Yes|false#No".toList) true =
        some (some (IString.new "Yes".toList),
          { text := "true#Yes|false#No".toList,
            selectors := ["true".toList, "false".toList],
            strings := ["Yes".toList, "No".toList],
            defaultChoice := [], patterns := [] }) ∧
    getChoiceBool (IString.new "true#Yes|false#No".toList) false =
        some (some (IString.new "No".toList),
          { text := "true#Yes|false#No".toList,
            selectors := ["true".toList, "false".toList],
            strings := ["Yes".toList, "No".toList],
            defaultChoice := [], patterns := [] }) := by
  constructor
  · obtain ⟨chosen, hget, hfirst, -⟩ :=
      getChoiceBool_first_match "true#Yes|false#No".toList true
        { text := "true#Yes|false#No".toList,
          selectors := ["true".toList, "false".toList],
          strings := ["Yes".toList, "No".toList],
          defaultChoice := [], patterns := [] } (by decide) (by decide)
    have hc := hfirst 0 "true".toList (by decide) (by decide) (fun j t hj => absurd hj (by omega))
    have hch : chosen = "Yes".toList := by simpa using hc.symm
    rw [hget, hch]
  · obtain ⟨chosen, hget, hfirst, -⟩ :=
      getChoiceBool_first_match "true#Yes|false#No".toList false
        { text := "true#Yes|false#No".toList,
          selectors := ["true".toList, "false".toList],
          strings := ["Yes".toList, "No".toList],
          defaultChoice := [], patterns := [] } (by decide) (by decide)
    have hc := hfirst 1 "false".toList (by decide) (by decide)
      (fun j t hj ht => by
        have hj0 : j = 0 := by omega
        subst hj0
        have ht' : t = "true".toList := by simpa using ht.symm
        subst ht'
        decide)
    have hch : chosen = "No".toList := by simpa using hc.symm
    rw [hget, hch]

/-- When the pattern facility searches a pattern of lowercase letters and digits
as plain text, the test made on such a compiled pattern succeeds exactly when the
subject handed to it, already lowercased by the caller, is the pattern. -/
theorem patternMatches_literal (regexSearch : Str → Str → Option Str)
    (hre : ∀ pattern subject, isLiteral pattern = true →
      regexSearch pattern subject = literalSearch pattern subject)
    (selector reference : Str) (hsel : isLiteral selector = true) :
    patternMatches regexSearch selector (to_lower reference) = true ↔
      to_lower reference = selector := by
  simp only [patternMatches, hre selector _ hsel, literalSearch]
  constructor
  · intro h
    cases hf : find selector (to_lower reference) with
    | none => simp [hf] at h
    | some n =>
      simp only [hf, decide_eq_true_eq] at h
      exact h.symm
  · intro h
    rw [h]
    cases hf : find selector selector with
    | none => exact absurd hf (find_self selector)
    | some n => simp

theorem isLiteral_chars {sel : Str} (h : isLiteral sel = true) :
    ∀ c ∈ sel, c ≠ '|' ∧ c ≠ '"' ∧ c ≠ '#' := by
  intro c hc
  have hcl : (c.isLower || c.isDigit) = true := by
    have := List.all_eq_true.mp h c hc
    simpa using this
  refine ⟨?_, ?_, ?_⟩ <;> (intro heq; subst heq; exact absurd hcl (by decide))

theorem parseChoices_literalTemplate (sel t d : Str) (hsel : isLiteral sel = true)
    (ht : PlainText t) (hd : PlainText d) :
    parseChoices (IString.new (literalTemplate sel t d)) =
      some { text := literalTemplate sel t d, selectors := [sel, []], strings := [t, d],
             defaultChoice := d, patterns := [] } := by
  have hch := isLiteral_chars hsel
  have hsplit : split (literalTemplate sel t d) ['|'] = [sel ++ '#' :: t, [] ++ '#' :: d] := by
    have e : literalTemplate sel t d = (sel ++ '#' :: t) ++ '|' :: ([] ++ '#' :: d) := by
      simp [literalTemplate]
    rw [e, split_bar_cons_choice _ _ _ (fun c hc => ⟨(hch c hc).1, (hch c hc).2.1⟩) ht,
      split_bar_last_choice _ _ (by simp) hd]
  rw [parseChoices_eq]
  show Option.map _ (parseChoicesLoop (split (literalTemplate sel t d) ['|']) [] [] [] []) = _
  rw [hsplit,
    parseChoicesLoop_cons_choice _ _ _ _ _ _ _ (fun c hc => (hch c hc).2.2) ht.1
      (fun c hc => (ht.2.1 c hc).2.1),
    parseChoicesLoop_cons_choice _ _ _ _ _ _ _ (by simp) hd.1
      (fun c hc => (hd.2.1 c hc).2.1)]
  simp [parseChoicesLoop, IString.new]

/-- C1: numeric range partition.  For naturals `A <= B` within the guard of
`parseLongToDouble` and plain texts `s`, `m`, `l`, `getChoice(double)` on the template
`<A#s|A-B#m|>B#l` returns `s` for a reference below `A`, `m` for one from `A` to `B`
inclusive, and `l` for one above `B`. -/
theorem getChoiceDouble_range_partition (A B : Nat) (hAB : A ≤ B)
    (hB : (B : Int) ≤ LONG_MAX.tdiv 100000) (s m l : Str) (hs : PlainText s)
    (hm : PlainText m) (hl : PlainText l) (r : ℚ) :
    (r < (A : ℚ) →
      (getChoiceDouble (IString.new (rangeTemplate A B s m l)) r).map
        (fun res => res.1.map IString.toString) = some (some s)) ∧
    ((A : ℚ) ≤ r → r ≤ (B : ℚ) →
      (getChoiceDouble (IString.new (rangeTemplate A B s m l)) r).map
        (fun res => res.1.map IString.toString) = some (some m)) ∧
    ((B : ℚ) < r →
      (getChoiceDouble (IString.new (rangeTemplate A B s m l)) r).map
        (fun res => res.1.map IString.toString) = some (some l)) := by
  have hABq : (A : ℚ) ≤ (B : ℚ) := by exact_mod_cast hAB
  have hguard : LONG_MAX.tdiv 100000 = 92233720368547 := by decide
  have hB' : B ≤ 92233720368547 := by omega
  rw [getChoiceDouble_rangeTemplate A B (le_trans hAB hB') hB' s m l hs hm hl r]
  refine ⟨fun h => by simp [h], fun h1 h2 => ?_, fun h => ?_⟩
  · simp [not_lt.mpr h1, h1, h2]
  · have hA : ¬ r < (A : ℚ) := not_lt.mpr (le_trans hABq (le_of_lt h))
    have hnB : ¬ r ≤ (B : ℚ) := not_le.mpr h
    simp [hA, hnB, h]

/-- Witness of C1: `<10#small|10-20#medium|>20#large` gives `small` for 5, `medium`
for 15 and `large` for 25. -/
theorem getChoiceDouble_range_partition_witness :
    rangeTemplate 10 20 "small".toList "medium".toList "large".toList =
        "<10#small|10-20#medium|>20#large".toList ∧
    (getChoiceDouble (IString.new (rangeTemplate 10 20 "small".toList "medium".toList
        "large".toList)) 5).map (fun res => res.1.map IString.toString) =
      some (some "small".toList) ∧
    (getChoiceDouble (IString.new (rangeTemplate 10 20 "small".toList "medium".toList
        "large".toList)) 15).map (fun res => res.1.map IString.toString) =
      some (some "medium".toList) ∧
    (getChoiceDouble (IString.new (rangeTemplate 10 20 "small".toList "medium".toList
        "large".toList)) 25).map (fun res => res.1.map IString.toString) =
      some (some "large".toList) :=
  ⟨by decide,
   (getChoiceDouble_range_partition 10 20 (by decide) (by decide) "small".toList
      "medium".toList "large".toList (by unfold PlainText; decide) (by unfold PlainText; decide)
      (by unfold PlainText; decide) 5).1 (by norm_num),
   (getChoiceDouble_range_partition 10 20 (by decide) (by decide) "small".toList
      "medium".toList "large".toList (by unfold PlainText; decide) (by unfold PlainText; decide)
      (by unfold PlainText; decide) 15).2.1 (by norm_num) (by norm_num),
   (getChoiceDouble_range_partition 10 20 (by decide) (by decide) "small".toList
      "medium".toList "large".toList (by unfold PlainText; decide) (by unfold PlainText; decide)
      (by unfold PlainText; decide) 25).2.2 (by norm_num)⟩

/-- C2: exact numeric selection is exact on integers.  For the decimal rendering of a
natural `N < 10 ^ 12` and an integer reference `r`, the numeric matcher of
`getChoice(double)` takes the selector as matching exactly when `r = N`. -/
theorem selectorMatches_exact_integer (N : Nat) (hN : N < 10 ^ 12) (r : Int) :
    selectorMatches (decimal N) (r : ℚ) = true ↔ r = (N : Int) := by
  have hdig := decimal_isDigits N
  have hval := (decimal_spec N).2.2
  rw [selectorMatches_digits hdig, getBooleanSelector_digits hdig]
  by_cases h1 : decimal N = ['1']
  · have hN1 : N = 1 := by rw [← hval, h1]; decide
    subst hN1
    simp only [h1, if_true]
    have := equalDouble_int r 1 (by norm_num)
    simpa using this
  · by_cases h0 : decimal N = ['0']
    · have hN0 : N = 0 := by rw [← hval, h0]; decide
      subst hN0
      simp only [h0]
      have := equalDouble_int r 0 (by norm_num)
      simpa using this
    · simp only [h1, h0, if_false]
      have hg : digitsValue (decimal N) ≤ 92233720368547 := by rw [hval]; omega
      rw [if_neg (by decide), parseLongToDouble_digits hdig hg, hval]
      exact equalDouble_int r N hN

/-- Witness of C2: `1#one|2#two|#other` gives `one` for 1, `two` for 2 and `other`
for 3. -/
theorem selectorMatches_exact_integer_witness :
    (getChoiceDouble (IString.new "1#one|2#two|#other".toList) ((1 : Int) : ℚ)).map
        (fun res => res.1.map IString.toString) = some (some "one".toList) ∧
    (getChoiceDouble (IString.new "1#one|2#two|#other".toList) ((2 : Int) : ℚ)).map
        (fun res => res.1.map IString.toString) = some (some "two".toList) ∧
    (getChoiceDouble (IString.new "1#one|2#two|#other".toList) ((3 : Int) : ℚ)).map
        (fun res => res.1.map IString.toString) = some (some "other".toList) := by
  have hparse : parseChoices (IString.new "1#one|2#two|#other".toList) =
      some { text := "1#one|2#two|#other".toList,
             selectors := [decimal 1, decimal 2, []],
             strings := ["one".toList, "two".toList, "other".toList],
             defaultChoice := "other".toList, patterns := [] } := by decide
  have m11 : selectorMatches (decimal 1) ((1 : Int) : ℚ) = true :=
    (selectorMatches_exact_integer 1 (by norm_num) 1).mpr rfl
  have m12 : selectorMatches (decimal 1) ((2 : Int) : ℚ) = false :=
    Bool.eq_false_iff.mpr
      (fun h => absurd ((selectorMatches_exact_integer 1 (by norm_num) 2).mp h) (by decide))
  have m13 : selectorMatches (decimal 1) ((3 : Int) : ℚ) = false :=
    Bool.eq_false_iff.mpr
      (fun h => absurd ((selectorMatches_exact_integer 1 (by norm_num) 3).mp h) (by decide))
  have m22 : selectorMatches (decimal 2) ((2 : Int) : ℚ) = true :=
    (selectorMatches_exact_integer 2 (by norm_num) 2).mpr rfl
  have m23 : selectorMatches (decimal 2) ((3 : Int) : ℚ) = false :=
    Bool.eq_false_iff.mpr
      (fun h => absurd ((selectorMatches_exact_integer 2 (by norm_num) 3).mp h) (by decide))
  refine ⟨?_, ?_, ?_⟩
  · rw [getChoiceDouble_new _ _ _ (by decide) hparse]
    simp only [getChoiceDoubleLoop, m11]
    rfl
  · rw [getChoiceDouble_new _ _ _ (by decide) hparse]
    simp only [getChoiceDoubleLoop, m12, m22]
    rfl
  · rw [getChoiceDouble_new _ _ _ (by decide) hparse]
    simp only [getChoiceDoubleLoop, m13, m23, selectorMatches_nil]
    rfl

/-- C3: boolean resolution, at the template `true#Yes|"` with the reference true.
The selector `true` of the first entry classifies as 1, so the text `Yes` is due; but the
splitter also hands `parseChoices` the segment `"` emptied of its quote, whose `#`-split
has no part, and `parts[0]` is read out of bounds: `getChoice(true)` has no defined
result.  Without the second entry (`true#Yes`) it returns `Yes`. -/
theorem getChoiceBool_emptied_entry_out_of_bounds :
    split "true#Yes|\"".toList "|".toList = ["true#Yes".toList, []] ∧
    getBooleanSelector "true".toList = 1 ∧
    parseChoices (IString.new "true#Yes|\"".toList) = none ∧
    getChoiceBool (IString.new "true#Yes|\"".toList) true = none ∧
    (getChoiceBool (IString.new "true#Yes".toList) true).map
      (fun result => result.1.map IString.toString) = some (some "Yes".toList) := by
  decide

/-- C4: parsing of an entry with one `#`, at the template `x#y|a#`.  The splitter hands
`parseChoices` the entries `x#y` and `a#`; the second has exactly one `#` and nothing
after it, and is recorded with selector `a` and the text `y` of the entry before it, not
the empty text. -/
theorem parseChoices_trailing_hash_stale_text :
    split "x#y|a#".toList "|".toList = ["x#y".toList, "a#".toList] ∧
    (parseChoices (IString.new "x#y|a#".toList)).map (fun p => (p.selectors, p.strings)) =
      some (["x".toList, "a".toList], ["y".toList, "y".toList]) := by
  decide

/-- C5: single-occurrence substitution.  With the one entry `(k, v)`, `format` returns
the text unchanged when `{k}` does not occur in it, and otherwise replaces the leftmost
occurrence of `{k}` alone by `v`: what precedes and what follows it is kept as it is. -/
theorem format_single_occurrence (text k v : Str) :
    (¬ ('{' :: k ++ ['}']) <:+: text → format (IString.new text) [(k, v)] = text) ∧
    (∀ pre post, text = pre ++ ('{' :: k ++ ['}']) ++ post →
      (∀ pre' post', text = pre' ++ ('{' :: k ++ ['}']) ++ post' → pre.length ≤ pre'.length) →
      format (IString.new text) [(k, v)] = pre ++ v ++ post) := by
  constructor
  · intro habs
    simpa [format, IString.new] using formatStep_of_absent text k v habs
  · intro pre post hocc hleft
    simpa [format, IString.new] using formatStep_of_leftmost text k v pre post hocc hleft

/-- Witness of C5: `format("{a} and {a}", {a: "X"})` is `X and {a}`. -/
theorem format_single_occurrence_witness :
    format (IString.new "{a} and {a}".toList) [("a".toList, "X".toList)] = "X and {a}".toList :=
  (format_single_occurrence "{a} and {a}".toList "a".toList "X".toList).2 [] " and {a}".toList
    (by decide) (fun pre' _ _ => Nat.zero_le pre'.length)

/-- C6: the empty mapping is a no-op.  `format` with no entry returns the text, and
`formatChoice` with no entry, for a boolean, a numeric and a string reference, returns
the text of what `getChoice` returns for that reference (the empty string for `NULL`). -/
theorem format_empty_mapping :
    (∀ self : IString, format self [] = self.text) ∧
    (∀ (self : IString) (reference : Bool),
      formatChoiceBool self reference [] =
        (getChoiceBool self reference).map
          (fun r => (match r.1 with | some chosen => chosen.text | none => [], r.2))) ∧
    (∀ (self : IString) (reference : ℚ),
      formatChoiceDouble self reference [] =
        (getChoiceDouble self reference).map
          (fun r => (match r.1 with | some chosen => chosen.text | none => [], r.2))) ∧
    (∀ (regexCompiles : Str → Bool) (regexSearch : Str → Str → Option Str) (self : IString)
        (reference : Str),
      formatChoiceString regexCompiles regexSearch self reference [] =
        (getChoiceString regexCompiles regexSearch self reference).map
          (fun r => (match r.1 with | some chosen => chosen.text | none => [], r.2))) := by
  have key : ∀ o : Option (Option IString × IString),
      formatResult [] o =
        o.map (fun r => (match r.1 with | some chosen => chosen.text | none => [], r.2)) := by
    intro o
    rcases o with _ | ⟨_ | chosen, self'⟩ <;> rfl
  exact ⟨fun _ => rfl, fun _ _ => key _, fun _ _ => key _, fun _ _ _ _ => key _⟩

/-- C7: the default choice is the last written.  After `parseChoices`, `defaultChoice`
is the text at the greatest index whose selector is empty, and the empty string when no
selector is empty. -/
theorem parseChoices_defaultChoice_last (self p : IString) (h : parseChoices self = some p) :
    (∀ j : Nat, p.selectors[j]? = some [] →
      (∀ k : Nat, j < k → p.selectors[k]? ≠ some []) → p.strings[j]? = some p.defaultChoice) ∧
    ((∀ j : Nat, p.selectors[j]? ≠ some []) → p.defaultChoice = []) :=
  (parseChoices_defaultIsLast self p h).2

/-- Witness of C7: `#a|#b` has the default text `b`, and `1#one` has the empty default
text. -/
theorem parseChoices_defaultChoice_last_witness :
    (parseChoices (IString.new "#a|#b".toList)).map (fun p => p.defaultChoice) =
      some "b".toList ∧
    (parseChoices (IString.new "1#one".toList)).map (fun p => p.defaultChoice) = some [] := by
  constructor
  · obtain ⟨p, hp, hsel, hstr⟩ : ∃ p, parseChoices (IString.new "#a|#b".toList) = some p ∧
        p.selectors = [[], []] ∧ p.strings = ["a".toList, "b".toList] :=
      ⟨{ text := "#a|#b".toList, selectors := [[], []], strings := ["a".toList, "b".toList],
         defaultChoice := "b".toList, patterns := [] }, by decide, rfl, rfl⟩
    have hlast := (parseChoices_defaultChoice_last _ p hp).1 1 (by rw [hsel]; rfl)
      (fun k hk => by
        rw [hsel, List.getElem?_eq_none (by simp only [List.length_cons, List.length_nil]; omega)]
        simp)
    rw [hstr] at hlast
    have hd : p.defaultChoice = "b".toList := by simpa using hlast.symm
    rw [hp, Option.map_some', hd]
  · obtain ⟨p, hp, hsel⟩ : ∃ p, parseChoices (IString.new "1#one".toList) = some p ∧
        p.selectors = ["1".toList] :=
      ⟨{ text := "1#one".toList, selectors := ["1".toList], strings := ["one".toList],
         defaultChoice := [], patterns := [] }, by decide, rfl⟩
    have hd := (parseChoices_defaultChoice_last _ p hp).2
      (fun j => by
        rw [hsel]
        cases j with
        | zero => decide
        | succ j => simp)
    rw [hp, Option.map_some', hd]

/-- C8: string resolution at the template `#other|abc#found` with the reference `abc`.
The parse gives the selectors `""`, `abc` and the texts `other`, `found`; the pattern of
`abc` matches the reference in full, and `getChoice(string)` returns `other`, the text at
the index of the pattern among the compiled patterns, not `found`.  With the empty
selector last, `abc#found|#other`, it returns `found`. -/
theorem getChoiceString_misaligned_text :
    (parseChoices (IString.new "#other|abc#found".toList)).map
        (fun p => (p.selectors, p.strings, p.defaultChoice)) =
      some ([[], "abc".toList], ["other".toList, "found".toList], "other".toList) ∧
    patternMatches literalSearch "abc".toList (to_lower "abc".toList) = true ∧
    (getChoiceString literalCompiles literalSearch (IString.new "#other|abc#found".toList)
        "abc".toList).map (fun r => r.1.map IString.toString) = some (some "other".toList) ∧
    (getChoiceString literalCompiles literalSearch (IString.new "abc#found|#other".toList)
        "abc".toList).map (fun r => r.1.map IString.toString) = some (some "found".toList) := by
  decide

/-- C9: whole-string match for literal selectors.  When the pattern facility compiles
a pattern of lowercase letters and digits and searches it as plain text, `getChoice(string)`
on the template `sel#t|#d` with such a selector `sel`, not empty since an empty selector is
no pattern, returns the text `t` of the selector exactly when the lowercased reference is
`sel` in full, and the default text `d` for every other reference. -/
theorem getChoiceString_literal_whole_string (regexCompiles : Str → Bool)
    (regexSearch : Str → Str → Option Str)
    (hcompile : ∀ pattern, isLiteral pattern = true → regexCompiles pattern = true)
    (hsearch : ∀ pattern subject, isLiteral pattern = true →
      regexSearch pattern subject = literalSearch pattern subject)
    (sel t d reference : Str) (hsel : isLiteral sel = true) (hne : sel ≠ [])
    (ht : PlainText t) (hd : PlainText d) :
    (getChoiceString regexCompiles regexSearch (IString.new (literalTemplate sel t d))
        reference).map (fun result => result.1.map IString.toString) =
      some (some (if to_lower reference = sel then t else d)) := by
  have hparse := parseChoices_literalTemplate sel t d hsel ht hd
  have htext : ¬ ((IString.new (literalTemplate sel t d)).text.isEmpty ||
      decide ((IString.new (literalTemplate sel t d)).text.length = 0)) = true := by
    have : literalTemplate sel t d ≠ [] := by simp [literalTemplate]
    simp [IString.new, this]
  have hcp : compilePatterns regexCompiles [sel, []] [] = ([sel], true) := by
    have hpos : 0 < sel.length := List.length_pos.mpr hne
    simp [compilePatterns, hne, hpos, hcompile sel hsel]
  have hmatch : patternMatches regexSearch sel (to_lower reference) =
      decide (to_lower reference = sel) := by
    rw [Bool.eq_iff_iff, patternMatches_literal regexSearch hsearch sel reference hsel]
    simp
  unfold getChoiceString
  rw [if_neg htext, ensureParsed_new, hparse]
  simp only [ensurePatterns, List.isEmpty_nil, if_true, hcp, List.length_singleton,
    gt_iff_lt, Nat.lt_one_iff, Nat.one_ne_zero, Nat.zero_lt_one, getChoiceStringLoop, hmatch]
  by_cases h : to_lower reference = sel
  · simp [h, wrapChoice, IString.new, IString.toString]
  · simp [h, wrapChoice, IString.new, IString.toString]

/-- Witness of C9: on `abc#found|#other` the reference `xabcx` gets the default text and
the references `abc` and `ABC` get the text of the selector `abc`. -/
theorem getChoiceString_literal_whole_string_witness :
    literalTemplate "abc".toList "found".toList "other".toList = "abc#found|#other".toList ∧
    (getChoiceString literalCompiles literalSearch (IString.new "abc#found|#other".toList)
      "xabcx".toList).map (fun result => result.1.map IString.toString) =
        some (some "other".toList) ∧
    (getChoiceString literalCompiles literalSearch (IString.new "abc#found|#other".toList)
      "abc".toList).map (fun result => result.1.map IString.toString) =
        some (some "found".toList) ∧
    (getChoiceString literalCompiles literalSearch (IString.new "abc#found|#other".toList)
      "ABC".toList).map (fun result => result.1.map IString.toString) =
        some (some "found".toList) :=
  ⟨by decide,
   getChoiceString_literal_whole_string literalCompiles literalSearch (fun _ h => h)
     (fun _ _ _ => rfl) "abc".toList "found".toList "other".toList "xabcx".toList
     (by decide) (by decide) (by unfold PlainText; decide) (by unfold PlainText; decide),
   getChoiceString_literal_whole_string literalCompiles literalSearch (fun _ h => h)
     (fun _ _ _ => rfl) "abc".toList "found".toList "other".toList "abc".toList
     (by decide) (by decide) (by unfold PlainText; decide) (by unfold PlainText; decide),
   getChoiceString_literal_whole_string literalCompiles literalSearch (fun _ h => h)
     (fun _ _ _ => rfl) "abc".toList "found".toList "other".toList "ABC".toList
     (by decide) (by decide) (by unfold PlainText; decide) (by unfold PlainText; decide)⟩

/-- C10: the parser on the template made of one `"`.  The splitter keeps the segment
emptied by the cleanup, the `#`-split of the empty entry has no part, and `parts[0]` is
read out of bounds: `parseChoices` and `getChoice` for each reference type have no
defined result. -/
theorem parseChoices_quote_out_of_bounds :
    split "\"".toList "|".toList = [[]] ∧
    splitBySymbol [] '#' = [] ∧
    parseChoices (IString.new "\"".toList) = none ∧
    (∀ reference, getChoiceBool (IString.new "\"".toList) reference = none) ∧
    (∀ regexCompiles regexSearch reference,
      getChoiceString regexCompiles regexSearch (IString.new "\"".toList) reference = none ∧
      getChoiceStringThrown regexCompiles (IString.new "\"".toList) = none) ∧
    (∀ reference, getChoiceDouble (IString.new "\"".toList) reference = none) := by
  have hp : parseChoices (IString.new "\"".toList) = none := by decide
  have he : ensureParsed (IString.new "\"".toList) = none := hp
  refine ⟨by decide, by decide, hp, ?_, ?_, ?_⟩
  · intro reference
    simp only [getChoiceBool, he]
    rfl
  · intro regexCompiles regexSearch reference
    constructor
    · simp only [getChoiceString, he]
      rfl
    · simp only [getChoiceStringThrown, he]
      rfl
  · intro reference
    simp only [getChoiceDouble, he]
    rfl

/-- C11: an entry without `#`, at the template `a#x|b`.  The splitter hands
`parseChoices` the entries `a#x` and `b`; the `#`-split of `b` has one part, and `b` is
recorded with selector `b` and the text `x` of the entry before it, not the empty text.
In first position (`b|a#x`) its text is empty. -/
theorem parseChoices_missing_hash_stale_text :
    split "a#x|b".toList "|".toList = ["a#x".toList, "b".toList] ∧
    splitBySymbol "b".toList '#' = ["b".toList] ∧
    (parseChoices (IString.new "a#x|b".toList)).map (fun p => (p.selectors, p.strings)) =
      some (["a".toList, "b".toList], ["x".toList, "x".toList]) ∧
    (parseChoices (IString.new "b|a#x".toList)).map (fun p => (p.selectors, p.strings)) =
      some (["b".toList, "a".toList], [[], "x".toList]) := by
  decide

/-- C12: an entry with several `#`, at the template `a#b#`.  The `#`-split of `a#b#`
has the two parts `a` and `b`, so the entry is recorded with the text `b`, not `b#`.  The
entries `a#b#c` and `a#b##`, with three parts, keep everything after the first `#`. -/
theorem parseChoices_final_hash_dropped :
    splitBySymbol "a#b#".toList '#' = ["a".toList, "b".toList] ∧
    (parseChoices (IString.new "a#b#".toList)).map (fun p => (p.selectors, p.strings)) =
      some (["a".toList], ["b".toList]) ∧
    (parseChoices (IString.new "a#b#c".toList)).map (fun p => (p.selectors, p.strings)) =
      some (["a".toList], ["b#c".toList]) ∧
    (parseChoices (IString.new "a#b##".toList)).map (fun p => (p.selectors, p.strings)) =
      some (["a".toList], ["b##".toList]) := by
  decide

/-- C14: boolean keyword classification.  `getBooleanSelector` is 1 exactly when the
lowercased selector is one of `true`, `yes`, `on`, `1`, is 0 exactly when it is one of
`false`, `no`, `off`, `0`, and is -1 exactly when it is none of the eight;
`equalsIgnoreCase` holds exactly for texts of equal length with equal lowercased
characters. -/
theorem getBooleanSelector_classification :
    (∀ s : Str, getBooleanSelector s = 1 ↔
      to_lower s ∈ ["true".toList, "yes".toList, "on".toList, "1".toList]) ∧
    (∀ s : Str, getBooleanSelector s = 0 ↔
      to_lower s ∈ ["false".toList, "no".toList, "off".toList, "0".toList]) ∧
    (∀ s : Str, getBooleanSelector s = -1 ↔
      to_lower s ∉ ["true".toList, "yes".toList, "on".toList, "1".toList] ∧
      to_lower s ∉ ["false".toList, "no".toList, "off".toList, "0".toList]) ∧
    (∀ a b : Str, equalsIgnoreCase a b = true ↔
      a.length = b.length ∧ to_lower a = to_lower b) := by
  have hdisj : ∀ x : Str, x ∈ ["true".toList, "yes".toList, "on".toList, "1".toList] →
      x ∉ ["false".toList, "no".toList, "off".toList, "0".toList] := by decide
  refine ⟨fun s => ?_, fun s => ?_, fun s => ?_, equalsIgnoreCase_iff⟩
  · rw [getBooleanSelector_eq]
    by_cases h1 : to_lower s ∈ ["true".toList, "yes".toList, "on".toList, "1".toList]
    · simp only [h1, if_true]
    · by_cases h0 : to_lower s ∈ ["false".toList, "no".toList, "off".toList, "0".toList]
      · simp only [h1, h0, if_true, if_false]; decide
      · simp only [h1, h0, if_false]; decide
  · rw [getBooleanSelector_eq]
    by_cases h1 : to_lower s ∈ ["true".toList, "yes".toList, "on".toList, "1".toList]
    · have h0 := hdisj _ h1
      simp only [h1, h0, if_true]; decide
    · by_cases h0 : to_lower s ∈ ["false".toList, "no".toList, "off".toList, "0".toList]
      · simp only [h1, h0, if_true, if_false]
      · simp only [h1, h0, if_false]; decide
  · rw [getBooleanSelector_eq]
    by_cases h1 : to_lower s ∈ ["true".toList, "yes".toList, "on".toList, "1".toList]
    · simp only [h1, if_true, not_true_eq_false, false_and]; decide
    · by_cases h0 : to_lower s ∈ ["false".toList, "no".toList, "off".toList, "0".toList]
      · simp only [h1, h0, if_true, if_false, not_true_eq_false, and_false]; decide
      · simp only [h1, h0, if_false, not_false_eq_true, and_self]

/-- Witness of C14: `TRUE`, `Yes`, `ON`, `1` classify as 1, `False`, `No`, `Off`, `0`
as 0 and `maybe` as -1. -/
theorem getBooleanSelector_classification_witness :
    getBooleanSelector "TRUE".toList = 1 ∧ getBooleanSelector "Yes".toList = 1 ∧
    getBooleanSelector "ON".toList = 1 ∧ getBooleanSelector "1".toList = 1 ∧
    getBooleanSelector "False".toList = 0 ∧ getBooleanSelector "No".toList = 0 ∧
    getBooleanSelector "Off".toList = 0 ∧ getBooleanSelector "0".toList = 0 ∧
    getBooleanSelector "maybe".toList = -1 :=
  ⟨(getBooleanSelector_classification.1 _).mpr (by decide),
   (getBooleanSelector_classification.1 _).mpr (by decide),
   (getBooleanSelector_classification.1 _).mpr (by decide),
   (getBooleanSelector_classification.1 _).mpr (by decide),
   (getBooleanSelector_classification.2.1 _).mpr (by decide),
   (getBooleanSelector_classification.2.1 _).mpr (by decide),
   (getBooleanSelector_classification.2.1 _).mpr (by decide),
   (getBooleanSelector_classification.2.1 _).mpr (by decide),
   (getBooleanSelector_classification.2.2.1 _).mpr (by decide)⟩

/-- C15: tolerance equality degenerates at zero.  `equalDouble(a, 0)` and
`equalDouble(0, a)` hold exactly when `a = 0`, so the numeric matcher takes the selectors
`0`, `false`, `no`, `off` as matching the reference 0 only; `equalDouble(1.0000000000001,
1.0)` holds and `equalDouble(0.0, 0.0000001)` does not. -/
theorem equalDouble_degenerate_at_zero :
    (∀ a : ℚ, (equalDouble a 0 = true ↔ a = 0) ∧ (equalDouble 0 a = true ↔ a = 0)) ∧
    (∀ r : ℚ, (selectorMatches "0".toList r = true ↔ r = 0) ∧
      (selectorMatches "false".toList r = true ↔ r = 0) ∧
      (selectorMatches "no".toList r = true ↔ r = 0) ∧
      (selectorMatches "off".toList r = true ↔ r = 0)) ∧
    equalDouble 1.0000000000001 1.0 = true ∧
    equalDouble 0.0 0.0000001 = false := by
  refine ⟨fun a => ⟨equalDouble_zero_right a, equalDouble_zero_left a⟩, fun r => ?_, ?_, ?_⟩
  · have k (sel : Str) (hne : sel ≠ []) (hlt : sel.head? ≠ some '<')
        (hgt : sel.head? ≠ some '>') (hdash : find ['-'] sel = none)
        (hkw : getBooleanSelector sel = 0) : selectorMatches sel r = true ↔ r = 0 := by
      rw [selectorMatches_keyword sel r hne hlt hgt hdash (by rw [hkw]; decide), hkw]
      simpa using equalDouble_zero_right r
    exact ⟨k _ (by decide) (by decide) (by decide) (by decide) (by decide),
      k _ (by decide) (by decide) (by decide) (by decide) (by decide),
      k _ (by decide) (by decide) (by decide) (by decide) (by decide),
      k _ (by decide) (by decide) (by decide) (by decide) (by decide)⟩
  · simp only [equalDouble, decide_eq_true_eq]
    norm_num [abs_of_pos]
  · simp only [equalDouble, decide_eq_false_iff_not]
    norm_num [abs_of_pos]

/-- C16, amended: the static form with a `long` reference `n` passes `(double) n` to
the member `formatChoice` when `LONG_MIN/10000 <= n <= LONG_MAX/10000`, and passes `1.0`
when `n` is outside that range. -/
theorem staticFormatChoiceLong_guarded (message : Str) (n : Int)
    (parameters : List (Str × Str)) :
    (LONG_MIN.tdiv 10000 ≤ n → n ≤ LONG_MAX.tdiv 10000 →
      staticFormatChoiceLong message n parameters =
        (formatChoiceDouble (IString.new message) (n : ℚ) parameters).map
          (fun result => result.1)) ∧
    (n < LONG_MIN.tdiv 10000 ∨ LONG_MAX.tdiv 10000 < n →
      staticFormatChoiceLong message n parameters =
        (formatChoiceDouble (IString.new message) 1 parameters).map
          (fun result => result.1)) := by
  constructor
  · intro h1 h2
    unfold staticFormatChoiceLong
    simp only [ge_iff_le, h1, h2, and_self, if_true]
  · intro h
    have hg : ¬ (n ≥ LONG_MIN.tdiv 10000 ∧ n ≤ LONG_MAX.tdiv 10000) := by
      rintro ⟨h1, h2⟩
      rcases h with h | h <;> omega
    unfold staticFormatChoiceLong
    simp only [hg, if_false]

/-- Witness of C16, amended: the reference 5 is inside the range and 1000000000000000
is outside. -/
theorem staticFormatChoiceLong_guarded_witness :
    staticFormatChoiceLong "1#one|#other".toList 5 [] =
      (formatChoiceDouble (IString.new "1#one|#other".toList) ((5 : Int) : ℚ) []).map
        (fun result => result.1) ∧
    staticFormatChoiceLong "1#one|#other".toList 1000000000000000 [] =
      (formatChoiceDouble (IString.new "1#one|#other".toList) 1 []).map
        (fun result => result.1) :=
  ⟨(staticFormatChoiceLong_guarded "1#one|#other".toList 5 []).1 (by decide) (by decide),
   (staticFormatChoiceLong_guarded "1#one|#other".toList 1000000000000000 []).2
     (Or.inr (by decide))⟩

/-- Counterexample of C16: with the template `1#one|#other` and the `long` reference
1000000000000000, above `LONG_MAX/10000`, the static form returns `one`, while the member
`formatChoice` with the reference `(double) 1000000000000000` returns `other`. -/
theorem staticFormatChoiceLong_not_wrapper :
    staticFormatChoiceLong "1#one|#other".toList 1000000000000000 [] = some "one".toList ∧
    (formatChoiceDouble (IString.new "1#one|#other".toList)
        ((1000000000000000 : Int) : ℚ) []).map (fun result => result.1) =
      some "other".toList := by
  have hparse : parseChoices (IString.new "1#one|#other".toList) =
      some { text := "1#one|#other".toList, selectors := [['1'], []],
             strings := ["one".toList, "other".toList],
             defaultChoice := "other".toList, patterns := [] } := by decide
  have hguard : ¬ ((1000000000000000 : Int) ≥ LONG_MIN.tdiv 10000 ∧
      (1000000000000000 : Int) ≤ LONG_MAX.tdiv 10000) := by decide
  have m1 : selectorMatches ['1'] (1 : ℚ) = true := by
    rw [selectorMatches_one]
    simp [equalDouble]
  have m2 : selectorMatches ['1'] ((1000000000000000 : Int) : ℚ) = false := by
    rw [selectorMatches_one]
    simp only [equalDouble, decide_eq_false_iff_not]
    norm_num [abs_of_pos]
  constructor
  · unfold staticFormatChoiceLong
    simp only [hguard, if_false, formatChoiceDouble]
    rw [getChoiceDouble_new _ _ _ (by decide) hparse]
    simp only [getChoiceDoubleLoop, m1]
    rfl
  · unfold formatChoiceDouble
    rw [getChoiceDouble_new _ _ _ (by decide) hparse]
    simp only [getChoiceDoubleLoop, m2, selectorMatches_nil]
    rfl

/-- C17, amended: on a text whose braces occur only as placeholders `{key}` with a
key free of braces, and for entries with pairwise distinct keys where no key and no value
holds a brace, the substitution loop gives the same string over any two permutations of
the entries. -/
theorem format_order_independent_flat (toks : List Token) (l1 l2 : List (Str × Str))
    (hwf : ∀ t ∈ toks, t.WellFormed) (hperm : l1.Perm l2)
    (hkeys : (l1.map Prod.fst).Nodup)
    (hflat : ∀ e ∈ l1, BraceFree e.1 ∧ BraceFree e.2) :
    format (IString.new (render toks)) l1 = format (IString.new (render toks)) l2 := by
  have hflat2 : ∀ e ∈ l2, BraceFree e.1 ∧ BraceFree e.2 :=
    fun e he => hflat e (hperm.mem_iff.mpr he)
  rw [format_eq_foldl, format_eq_foldl]
  show l1.foldl formatStep (render toks) = l2.foldl formatStep (render toks)
  rw [foldl_formatStep_render l1 toks hflat hwf, foldl_formatStep_render l2 toks hflat2 hwf]
  congr 1
  apply hperm.foldl_eq'
  intro x hx y hy z
  by_cases hxy : x.1 = y.1
  · have : x = y := List.inj_on_of_nodup_map hkeys hx hy hxy
    subst this
    rfl
  · exact substFirst_comm x.1 x.2 y.1 y.2 hxy z

/-- Witness of C17, amended: `{a} {b}` with the entries `a: X`, `b: Y` in both
orders. -/
theorem format_order_independent_flat_witness :
    format (IString.new "{a} {b}".toList) [("a".toList, "X".toList), ("b".toList, "Y".toList)] =
      format (IString.new "{a} {b}".toList)
        [("b".toList, "Y".toList), ("a".toList, "X".toList)] :=
  format_order_independent_flat [.hole "a".toList, .lit ' ', .hole "b".toList]
    [("a".toList, "X".toList), ("b".toList, "Y".toList)]
    [("b".toList, "Y".toList), ("a".toList, "X".toList)]
    (by
      intro t ht
      simp only [List.mem_cons, List.mem_singleton, List.not_mem_nil, or_false] at ht
      rcases ht with rfl | rfl | rfl <;> simp [Token.WellFormed, BraceFree])
    (List.Perm.swap _ _ _) (by decide)
    (by
      intro e he
      simp only [List.mem_cons, List.mem_singleton, List.not_mem_nil, or_false] at he
      rcases he with rfl | rfl <;> simp [BraceFree])

/-- Counterexample of C17: on the text `{a}` the entries `a: {b}`, `b: X` give `X` in
that order and `{b}` in the other; on the text `{x{a}y}` the entries `a: ""`, `xy: Z` give
`Z` in that order and `{xy}` in the other; on the text `{a}{b}` the entries `a: X`,
`a}{b: Y` give `X{b}` in that order and `Y` in the other.  Distinct keys do not make the
loop independent of the order. -/
theorem format_order_dependent :
    format (IString.new "{a}".toList) [("a".toList, "{b}".toList), ("b".toList, "X".toList)] =
      "X".toList ∧
    format (IString.new "{a}".toList) [("b".toList, "X".toList), ("a".toList, "{b}".toList)] =
      "{b}".toList ∧
    format (IString.new "{x{a}y}".toList) [("a".toList, []), ("xy".toList, "Z".toList)] =
      "Z".toList ∧
    format (IString.new "{x{a}y}".toList) [("xy".toList, "Z".toList), ("a".toList, [])] =
      "{xy}".toList ∧
    format (IString.new "{a}{b}".toList)
        [("a".toList, "X".toList), ("a\x7d\x7bb".toList, "Y".toList)] = "X{b}".toList ∧
    format (IString.new "{a}{b}".toList)
        [("a\x7d\x7bb".toList, "Y".toList), ("a".toList, "X".toList)] = "Y".toList ∧
    ¬ (∀ (text : Str) (l1 l2 : List (Str × Str)), (l1.map Prod.fst).Nodup → l1.Perm l2 →
        format (IString.new text) l1 = format (IString.new text) l2) := by
  refine ⟨by decide, by decide, by decide, by decide, by decide, by decide, fun h => ?_⟩
  have := h "{a}".toList [("a".toList, "{b}".toList), ("b".toList, "X".toList)]
    [("b".toList, "X".toList), ("a".toList, "{b}".toList)] (by decide) (List.Perm.swap _ _ _)
  exact absurd this (by decide)

/-- C18: parse-cache invariant.  In every state an object constructed from `text`
reaches by calls of `parseChoices` and `getChoice`, also calls of `getChoice(string)` left
by an exception, `selectors` and `strings` have the same length, and after a
`parseChoices` that completes both have as many elements as the split of `text` on `|`. -/
theorem reachable_selectors_strings_length (regexCompiles : Str → Bool)
    (regexSearch : Str → Str → Option Str) (text : Str) (s : IString)
    (h : Reachable regexCompiles regexSearch text s) :
    s.selectors.length = s.strings.length ∧
    ∀ p, parseChoices s = some p →
      p.selectors.length = (split text "|".toList).length ∧
      p.strings.length = (split text "|".toList).length := by
  have hinv := reachable_cacheInvariant h
  refine ⟨hinv.1, fun p hp => ?_⟩
  have := parseChoices_length s p hp
  rw [hinv.2] at this
  exact this

/-- Witness of C18: the state of `true#Yes|false#No` after `getChoice(true)`. -/
theorem reachable_selectors_strings_length_witness :
    (["true".toList, "false".toList] : List Str).length =
      (["Yes".toList, "No".toList] : List Str).length ∧
    (["true".toList, "false".toList] : List Str).length =
      (split "true#Yes|false#No".toList "|".toList).length ∧
    (["Yes".toList, "No".toList] : List Str).length =
      (split "true#Yes|false#No".toList "|".toList).length :=
  have hreach : Reachable literalCompiles literalSearch "true#Yes|false#No".toList
      { text := "true#Yes|false#No".toList, selectors := ["true".toList, "false".toList],
        strings := ["Yes".toList, "No".toList], defaultChoice := [], patterns := [] } :=
    Reachable.call Reachable.construct
      (Step.getChoiceBool true (some (IString.new "Yes".toList)) (by decide))
  ⟨(reachable_selectors_strings_length literalCompiles literalSearch _ _ hreach).1,
   (reachable_selectors_strings_length literalCompiles literalSearch _ _ hreach).2
     { text := "true#Yes|false#No".toList, selectors := ["true".toList, "false".toList],
       strings := ["Yes".toList, "No".toList], defaultChoice := [], patterns := [] }
     (by decide)⟩

/-- C19: segments emptied by the cleanup, at `split("\"|a", "|")` and
`split(",", "|")`.  The segment `"` is tested for emptiness before its quote is erased
and is then pushed empty: the results are `["", "a"]` and `[""]`, not `["a"]` and `[]`.
Segments empty before the cleanup are dropped. -/
theorem split_keeps_emptied_segment :
    split "\"|a".toList "|".toList = [[], "a".toList] ∧
    split ",".toList "|".toList = [[]] ∧
    split "|a||b|".toList "|".toList = ["a".toList, "b".toList] := by
  decide

/-- C20: a selector written as a negative number is a range from zero.  For a natural
`N` within the guard of `parseLongToDouble`, the numeric matcher takes the selector `-N`
as matching exactly the references from 0 to `N`; for `N > 0` it does not match the
reference `-N`; and a selector that is neither a comparison nor a range matches no
negative reference. -/
theorem selectorMatches_negative_number (N : Nat) (hN : (N : Int) ≤ LONG_MAX.tdiv 100000)
    (r : ℚ) :
    (selectorMatches ('-' :: decimal N) r = true ↔ 0 ≤ r ∧ r ≤ (N : ℚ)) ∧
    (0 < N → selectorMatches ('-' :: decimal N) (-(N : ℚ)) = false) ∧
    (∀ sel : Str,
      ¬ (sel.length > 1 ∧ (sel.head? = some '<' ∨ sel.head? = some '>')) →
      find ['-'] sel = none → r < 0 → selectorMatches sel r = false) := by
  have hguard : LONG_MAX.tdiv 100000 = 92233720368547 := by decide
  have hN' : N ≤ 92233720368547 := by omega
  have hdig := decimal_isDigits N
  have hval := (decimal_spec N).2.2
  have hsel : ∀ q : ℚ, selectorMatches ('-' :: decimal N) q =
      (decide (q ≥ 0) && decide (q ≤ (N : ℚ))) := by
    intro q
    have hdash : find ['-'] ('-' :: decimal N) = some 0 := by
      simp [find, List.isPrefixOf]
    simp only [selectorMatches, hdash, substr2, substr, String.toList]
    simp [parseLongToDouble_nil, parseLongToDouble_digits hdig (by rw [hval]; exact hN'), hval]
  refine ⟨?_, ?_, ?_⟩
  · rw [hsel]
    simp
  · intro hpos
    rw [hsel]
    have : ¬ (0 : ℚ) ≤ -(N : ℚ) := by
      have : (0 : ℚ) < (N : ℚ) := by exact_mod_cast hpos
      linarith
    simp [this]
  · intro sel hcmp hdash hr
    by_cases hne : sel = []
    · subst hne
      exact selectorMatches_nil r
    · rw [selectorMatches_exact_form sel r hcmp hdash hne]
      split
      · rename_i hkw
        apply equalDouble_neg_nonneg r _ hr
        have : (0 : Int) ≤ getBooleanSelector sel := by omega
        exact_mod_cast this
      · exact equalDouble_neg_nonneg r _ hr
          (parseLongToDouble_nonneg_of_no_dash sel (not_mem_of_find_singleton_none hdash))

/-- Witness of C20: the selector `-5` matches 3 and not -5, and the selector `5` does
not match -5. -/
theorem selectorMatches_negative_number_witness :
    selectorMatches "-5".toList 3 = true ∧
    selectorMatches "-5".toList (-((5 : Nat) : ℚ)) = false ∧
    selectorMatches "5".toList (-5) = false :=
  ⟨(selectorMatches_negative_number 5 (by decide) 3).1.mpr (by norm_num),
   (selectorMatches_negative_number 5 (by decide) 0).2.1 (by decide),
   (selectorMatches_negative_number 5 (by decide) (-5)).2.2 "5".toList (by decide) (by decide)
     (by norm_num)⟩

end WebOSi18n
